import Mathlib

/-!
Verification development for the GZIP header cleaner
(`gz_header_cleaner.py`): a shallow embedding of the parser, the
header rewriter and the directory driver, together with theorems about
the claims of the specification.

Files are byte lists (`List Nat`, each element a byte value).  Python
file-object semantics are embedded explicitly: `f.read(n)` at position
`i` is `(s.drop i).take n` (clipped at end of stream), `f.seek` just
moves the position (and may move past end of stream), and a read at a
position past end of stream returns the empty list.
-/

namespace GzCleaner

/-- GZIP flag constants, as in the source. -/
def FHCRC : Nat := 0x02

def FEXTRA : Nat := 0x04

def FNAME : Nat := 0x08

def FCOMMENT : Nat := 0x10

/-- Little-endian 16-bit decode of (the first two bytes of) a list,
`struct.unpack("<H", raw)`. -/
def le16 (l : List Nat) : Nat := l.getD 0 0 + 256 * l.getD 1 0

/-- Little-endian 32-bit decode, `struct.unpack("<I", h[4:8])`. -/
def le32 (l : List Nat) : Nat :=
  l.getD 0 0 + 256 * (l.getD 1 0 + 256 * (l.getD 2 0 + 256 * l.getD 3 0))

/-- Python `n & ~mask` for non-negative ints: clear the bits of `mask`. -/
def pyAndNotMask (n mask : Nat) : Nat := n - (n &&& mask)

/-- The distinct `ValueError` messages `parse_gzip_header` can raise. -/
inductive ParseError
  | notGzipMember
  | truncatedExtraLength
  | truncatedFNAME
  | truncatedFCOMMENT
deriving DecidableEq, Repr

/-- The metadata tuple `(h, flg, mtime, offsets-dict)` returned by
`parse_gzip_header`. -/
structure GzipMeta where
  first10 : List Nat
  flg : Nat
  mtime : Nat
  extra_len_off : Option Nat
  extra_end : Option Nat
  fname_start : Option Nat
  fname_end : Option Nat
  fcomment_start : Option Nat
  fcomment_end : Option Nat
  fhcrc_off : Option Nat
  payload_start : Nat
deriving DecidableEq, Repr

/-- The `while True: b = f.read(1) ...` NUL scan for FNAME/FCOMMENT:
given the remaining bytes from position `idx`, return the position one
past the first NUL byte, or `none` when the stream ends first. -/
def scanNul : List Nat → Nat → Option Nat
  | [], _ => none
  | b :: rest, idx => if b = 0 then some (idx + 1) else scanNul rest (idx + 1)

/-- The FEXTRA branch of `parse_gzip_header`: read 2 length bytes
(failing when fewer remain), then `f.seek(xlen)` — the seek cannot
fail, even past end of stream.  Returns
`(extra_len_off, extra_end, new idx)`. -/
def parseFextra (s : List Nat) (flg idx : Nat) :
    Except ParseError (Option Nat × Option Nat × Nat) :=
  if flg &&& FEXTRA ≠ 0 then
    let raw := (s.drop idx).take 2
    if raw.length < 2 then .error .truncatedExtraLength
    else
      let xlen := le16 raw
      .ok (some idx, some (idx + 2 + xlen), idx + 2 + xlen)
  else .ok (none, none, idx)

/-- The FNAME branch: scan to NUL, `ValueError("Truncated FNAME")` when
the stream ends first.  Returns `(fname_start, fname_end, new idx)`. -/
def parseName (s : List Nat) (flg idx : Nat) :
    Except ParseError (Option Nat × Option Nat × Nat) :=
  if flg &&& FNAME ≠ 0 then
    match scanNul (s.drop idx) idx with
    | none => .error .truncatedFNAME
    | some e => .ok (some idx, some e, e)
  else .ok (none, none, idx)

/-- The FCOMMENT branch, identical scan with its own error message. -/
def parseComment (s : List Nat) (flg idx : Nat) :
    Except ParseError (Option Nat × Option Nat × Nat) :=
  if flg &&& FCOMMENT ≠ 0 then
    match scanNul (s.drop idx) idx with
    | none => .error .truncatedFCOMMENT
    | some e => .ok (some idx, some e, e)
  else .ok (none, none, idx)

/-- The FHCRC branch: record the offset and `f.seek(2)` — no
truncation check, the seek cannot fail. -/
def parseHcrc (flg idx : Nat) : Option Nat × Nat :=
  if flg &&& FHCRC ≠ 0 then (some idx, idx + 2) else (none, idx)

/-- `parse_gzip_header` on a stream positioned at offset 0 (both call
sites open the file fresh, so `start = f.tell() = 0`). -/
def parse_gzip_header (s : List Nat) : Except ParseError GzipMeta :=
  let h := s.take 10
  if h.length < 10 then .error .notGzipMember
  else if h.take 2 ≠ [0x1f, 0x8b] then .error .notGzipMember
  else if h.getD 2 0 ≠ 0x08 then .error .notGzipMember
  else
    let flg := h.getD 3 0
    let mtime := le32 ((h.drop 4).take 4)
    match parseFextra s flg 10 with
    | .error e => .error e
    | .ok (elo, ee, i1) =>
      match parseName s flg i1 with
      | .error e => .error e
      | .ok (fns, fne, i2) =>
        match parseComment s flg i2 with
        | .error e => .error e
        | .ok (fcs, fce, i3) =>
          let (hco, i4) := parseHcrc flg i3
          .ok ⟨h, flg, mtime, elo, ee, fns, fne, fcs, fce, hco, i4⟩

/-- `inf.seek(a); inf.read(b - a)` — a clipped slice of the stream. -/
def sliceAt (s : List Nat) (a b : Nat) : List Nat := (s.drop a).take (b - a)

/-- `rewrite_header_only`: emit the fixed header with new flags and
zero MTIME, copy FEXTRA and FCOMMENT spans verbatim, skip FNAME and
FHCRC, then stream the rest of the file.  The chunked copy loop
concatenates to `s.drop payload_from`. -/
def rewrite_header_only (s : List Nat) (m : GzipMeta) : List Nat :=
  let new_flg0 := pyAndNotMask m.flg FNAME
  let new_flg := if m.flg &&& FHCRC ≠ 0 then pyAndNotMask new_flg0 FHCRC else new_flg0
  let new_fixed := ((((m.first10.set 3 new_flg).set 4 0).set 5 0).set 6 0).set 7 0
  let extraPart := if m.flg &&& FEXTRA ≠ 0 then
      sliceAt s (m.extra_len_off.getD 0) (m.extra_end.getD 0) else []
  let commentPart := if m.flg &&& FCOMMENT ≠ 0 then
      sliceAt s (m.fcomment_start.getD 0) (m.fcomment_end.getD 0) else []
  let payload_from := if m.flg &&& FHCRC ≠ 0 ∧ m.fhcrc_off ≠ none then
      m.fhcrc_off.getD 0 + 2 else m.payload_start
  new_fixed ++ extraPart ++ commentPart ++ s.drop payload_from

/-- `needs_cleaning` on a file's bytes: parse, then report
`(need_mtime, need_fname, need_fhcrc, flg, mtime)`. -/
def needs_cleaning (c : List Nat) :
    Except ParseError (Bool × Bool × Bool × Nat × Nat) :=
  match parse_gzip_header c with
  | .error e => .error e
  | .ok m =>
      .ok (decide (m.mtime ≠ 0), decide (m.flg &&& FNAME ≠ 0),
           decide (m.flg &&& FHCRC ≠ 0), m.flg, m.mtime)

/-- A path, as its byte string. -/
abbrev Path := List Nat

/-- Lexicographic byte-wise comparison of paths — the order
`sorted(targets)` visits files in. -/
def pathLe : Path → Path → Bool
  | [], _ => true
  | _ :: _, [] => false
  | a :: as, b :: bs =>
      if a < b then true else if b < a then false else pathLe as bs

/-- `pathLe` as a relation, for `sorted(targets)`. -/
def PathLeR (a b : Path) : Prop := pathLe a b = true

instance : DecidableRel PathLeR := fun a b => by
  unfold PathLeR; infer_instance

/-- A file system: paths to file contents (`none` = no such file). -/
def Fs : Type := Path → Option (List Nat)

/-- `path.with_suffix(path.suffix + ".tmp")` for a `*.gz` path:
append the bytes of `".tmp"`. -/
def tmpPath (p : Path) : Path := p ++ [46, 116, 109, 112]

/-- Outcome of the write side of one `clean_file` call: the copy into
the temporary file either completes, or an I/O failure interrupts it
after `written` bytes. -/
inductive Weff
  | ok
  | fail (written : Nat)
deriving DecidableEq, Repr

/-- The exceptions `clean_file` can raise. -/
inductive CleanError
  | parseFail (e : ParseError)
  | ioFail
deriving DecidableEq, Repr

/-- `clean_file` as a file-system transformer.  Open and parse the
original (propagating parse errors with the file system untouched);
open the temporary file and run `rewrite_header_only` into it; on
success `os.replace(tmp, path)` renames the temporary file over the
original; on an interrupted copy the `with` block merely closes the
temporary file, which keeps the bytes written so far — there is no
cleanup of `tmp` on the error path, and the rename is skipped. -/
def clean_file_fs (fs : Fs) (p : Path) (w : Weff) :
    Fs × Except CleanError Unit :=
  match fs p with
  | none => (fs, .error .ioFail)
  | some c =>
    match parse_gzip_header c with
    | .error e => (fs, .error (.parseFail e))
    | .ok m =>
      match w with
      | .ok =>
          (fun q => if q = p then some (rewrite_header_only c m)
                    else if q = tmpPath p then none else fs q, .ok ())
      | .fail n =>
          (fun q => if q = tmpPath p then some ((rewrite_header_only c m).take n)
                    else fs q, .error .ioFail)

/-- `needs_cleaning(p)` as called by the driver: opening a missing
file raises, parse errors propagate. -/
def needs_cleaning_at (fs : Fs) (p : Path) :
    Except CleanError (Bool × Bool × Bool × Nat × Nat) :=
  match fs p with
  | none => .error .ioFail
  | some c =>
    match needs_cleaning c with
    | .error e => .error (.parseFail e)
    | .ok r => .ok r

/-- The per-file status lines and summary lines the program prints. -/
inductive Msg
  | noFilesFound
  | foundFiles (n : Nat)
  | errorChecking (p : Path)
  | wouldClean (p : Path)
  | cleaned (p : Path)
  | errorCleaning (p : Path)
  | dryRunSummary (total changed errors : Nat)
  | cleanSummaryChanged (changed total : Nat)
  | cleanSummaryNoChange (total : Nat)
  | errorsSummary (errors : Nat)
deriving DecidableEq, Repr

/-- How the loop body of `clean_gzip_headers` classified one file. -/
inductive Outcome
  | errored
  | wouldClean
  | cleaned
  | cleanFailed
  | skipped
deriving DecidableEq, Repr

/-- One iteration of the `for p in sorted(targets)` loop body:
check, decide, and (unless dry-run) clean, with the verbose-gated
prints. -/
def processFile (dry verbose : Bool) (w : Weff) (fs : Fs) (p : Path) :
    Fs × Outcome × List Msg :=
  match needs_cleaning_at fs p with
  | .error _ => (fs, .errored, if verbose then [.errorChecking p] else [])
  | .ok (nm, nf, _nc, _flg, _mt) =>
    if nm || nf then
      if dry then (fs, .wouldClean, if verbose then [.wouldClean p] else [])
      else
        match clean_file_fs fs p w with
        | (fs', .ok _) => (fs', .cleaned, if verbose then [.cleaned p] else [])
        | (fs', .error _) => (fs', .cleanFailed, if verbose then [.errorCleaning p] else [])
    else (fs, .skipped, [])

/-- The running state of `clean_gzip_headers`: the file system, the
three counters, and the lines printed so far. -/
structure RunResult where
  fs : Fs
  total : Nat
  changed : Nat
  errors : Nat
  msgs : List Msg

/-- One loop iteration over the accumulated state: `total += 1`, then
`changed`/`errors` according to the outcome. -/
def stepFile (dry verbose : Bool) (weff : Path → Weff)
    (st : RunResult) (p : Path) : RunResult :=
  let r := processFile dry verbose (weff p) st.fs p
  { fs := r.1
    total := st.total + 1
    changed := st.changed + (if r.2.1 = .cleaned then 1 else 0)
    errors := st.errors + (if r.2.1 = .errored ∨ r.2.1 = .cleanFailed then 1 else 0)
    msgs := st.msgs ++ r.2.2 }

/-- `clean_gzip_headers`: early return on no targets, otherwise fold
the loop body over `sorted(targets)`. -/
def clean_gzip_headers (fs : Fs) (targets : List Path) (dry verbose : Bool)
    (weff : Path → Weff) : RunResult :=
  if targets = [] then
    { fs := fs, total := 0, changed := 0, errors := 0,
      msgs := if verbose then [.noFilesFound] else [] }
  else
    (List.insertionSort PathLeR targets).foldl (stepFile dry verbose weff)
      { fs := fs, total := 0, changed := 0, errors := 0,
        msgs := if verbose then [.foundFiles targets.length] else [] }

/-- `main` after argument parsing: `verbose = args.verbose and not
args.quiet`, run the cleaner, then the non-quiet summary lines. -/
def mainModel (fs : Fs) (targets : List Path) (dry verboseArg quiet : Bool)
    (weff : Path → Weff) : RunResult × List Msg :=
  let verbose := verboseArg && !quiet
  let r := clean_gzip_headers fs targets dry verbose weff
  let summary :=
    if quiet then []
    else
      (if dry then [Msg.dryRunSummary r.total r.changed r.errors]
       else if r.changed > 0 then [Msg.cleanSummaryChanged r.changed r.total]
       else [Msg.cleanSummaryNoChange r.total]) ++
      (if r.errors > 0 then [Msg.errorsSummary r.errors] else [])
  (r, r.msgs ++ summary)



/-- The outcome the loop body assigns to a file, as a function of the
file's bytes (and the dry-run flag and write effect). -/
def fileOutcome (d : Bool) (w : Weff) (c? : Option (List Nat)) : Outcome :=
  match c? with
  | none => .errored
  | some c =>
    match needs_cleaning c with
    | .error _ => .errored
    | .ok (nm, nf, _, _, _) =>
      if nm || nf then
        if d then .wouldClean
        else
          match w with
          | .ok => .cleaned
          | .fail _ => .cleanFailed
      else .skipped

/-- Outcomes the driver counts in `errors`. -/
def isFailure (o : Outcome) : Bool :=
  match o with
  | .errored => true
  | .cleanFailed => true
  | _ => false

/-- The cleaning predicate of the driver, on a file's bytes: parse
succeeded and `need_mtime or need_fname`. -/
def checkNeeds (c? : Option (List Nat)) : Bool :=
  match c? with
  | none => false
  | some c =>
    match needs_cleaning c with
    | .error _ => false
    | .ok (nm, nf, _, _, _) => nm || nf

/-- Whether the driver's per-file check raises (missing file or parse
error). -/
def checkErrs (c? : Option (List Nat)) : Bool :=
  match c? with
  | none => true
  | some c =>
    match needs_cleaning c with
    | .error _ => true
    | .ok _ => false

/-! ## Helper lemmas -/

theorem tmpPath_ne_self (p : Path) : p ≠ tmpPath p := by
  intro h
  have := congrArg List.length h
  simp [tmpPath] at this

theorem scanNul_eq_none_iff (l : List Nat) (idx : Nat) :
    scanNul l idx = none ↔ ∀ b ∈ l, b ≠ 0 := by
  induction l generalizing idx with
  | nil => simp [scanNul]
  | cons b rest ih =>
      by_cases hb : b = 0
      · subst hb; simp [scanNul]
      · simp [scanNul, hb, ih]

theorem scanNul_append_nul (pre post : List Nat) (idx : Nat)
    (h : ∀ b ∈ pre, b ≠ 0) :
    scanNul (pre ++ 0 :: post) idx = some (idx + pre.length + 1) := by
  induction pre generalizing idx with
  | nil => simp [scanNul]
  | cons b rest ih =>
      have hb : b ≠ 0 := h b (by simp)
      have h2 := ih (idx + 1) (fun x hx => h x (by simp [hx]))
      have step : scanNul ((b :: rest) ++ 0 :: post) idx
          = scanNul (rest ++ 0 :: post) (idx + 1) := by
        simp [scanNul, hb]
      rw [step, h2]
      simp only [Option.some.injEq, List.length_cons]
      omega

theorem scanNul_some_decomp (l : List Nat) (idx e : Nat)
    (h : scanNul l idx = some e) :
    ∃ pre post, l = pre ++ 0 :: post ∧ (∀ b ∈ pre, b ≠ 0) ∧
      e = idx + pre.length + 1 := by
  induction l generalizing idx with
  | nil => simp [scanNul] at h
  | cons b rest ih =>
      by_cases hb : b = 0
      · subst hb
        simp [scanNul] at h
        exact ⟨[], rest, by simp, by simp, by simp only [List.length_nil]; omega⟩
      · simp [scanNul, hb] at h
        obtain ⟨pre, post, hl, hpre, he⟩ := ih (idx + 1) h
        refine ⟨b :: pre, post, by simp [hl], ?_, ?_⟩
        · intro x hx
          rcases List.mem_cons.mp hx with h1 | h1
          · subst h1; exact hb
          · exact hpre x h1
        · simp only [List.length_cons]; omega

theorem parseFextra_ok {s : List Nat} {flg idx : Nat}
    {a b : Option Nat} {i' : Nat}
    (h : parseFextra s flg idx = .ok (a, b, i')) :
    (flg &&& FEXTRA = 0 ∧ a = none ∧ b = none ∧ i' = idx) ∨
    (flg &&& FEXTRA ≠ 0 ∧ idx + 2 ≤ s.length ∧ a = some idx ∧
      b = some (idx + 2 + le16 ((s.drop idx).take 2)) ∧
      i' = idx + 2 + le16 ((s.drop idx).take 2)) := by
  by_cases hf : flg &&& FEXTRA = 0
  · left
    simp [parseFextra, hf] at h
    exact ⟨hf, h.1.symm, h.2.1.symm, h.2.2.symm⟩
  · right
    simp only [parseFextra, if_pos hf] at h
    split at h
    · exact absurd h (by simp)
    · rename_i hlen
      simp only [Except.ok.injEq, Prod.mk.injEq] at h
      refine ⟨hf, ?_, h.1.symm, h.2.1.symm, h.2.2.symm⟩
      simp only [not_lt, List.length_take, List.length_drop] at hlen
      omega

theorem parseName_ok {s : List Nat} {flg idx : Nat}
    {a b : Option Nat} {i' : Nat}
    (h : parseName s flg idx = .ok (a, b, i')) :
    (flg &&& FNAME = 0 ∧ a = none ∧ b = none ∧ i' = idx) ∨
    (flg &&& FNAME ≠ 0 ∧ scanNul (s.drop idx) idx = some i' ∧
      a = some idx ∧ b = some i') := by
  by_cases hf : flg &&& FNAME = 0
  · left
    simp [parseName, hf] at h
    exact ⟨hf, h.1.symm, h.2.1.symm, h.2.2.symm⟩
  · right
    cases hscan : scanNul (s.drop idx) idx with
    | none => simp [parseName, hf, hscan] at h
    | some e =>
        simp [parseName, hf, hscan] at h
        obtain ⟨h1, h2, h3⟩ := h
        subst h3
        exact ⟨hf, rfl, h1.symm, h2.symm⟩

theorem parseComment_ok {s : List Nat} {flg idx : Nat}
    {a b : Option Nat} {i' : Nat}
    (h : parseComment s flg idx = .ok (a, b, i')) :
    (flg &&& FCOMMENT = 0 ∧ a = none ∧ b = none ∧ i' = idx) ∨
    (flg &&& FCOMMENT ≠ 0 ∧ scanNul (s.drop idx) idx = some i' ∧
      a = some idx ∧ b = some i') := by
  by_cases hf : flg &&& FCOMMENT = 0
  · left
    simp [parseComment, hf] at h
    exact ⟨hf, h.1.symm, h.2.1.symm, h.2.2.symm⟩
  · right
    cases hscan : scanNul (s.drop idx) idx with
    | none => simp [parseComment, hf, hscan] at h
    | some e =>
        simp [parseComment, hf, hscan] at h
        obtain ⟨h1, h2, h3⟩ := h
        subst h3
        exact ⟨hf, rfl, h1.symm, h2.symm⟩

theorem take_take_of_le (s : List Nat) {a b : Nat} (h : a ≤ b) :
    (s.take b).take a = s.take a := by
  rw [List.take_take]
  congr 1
  omega

theorem getD_take_of_lt (s : List Nat) {a b : Nat} (h : a < b) :
    (s.take b).getD a 0 = s.getD a 0 := by
  rw [List.getD_eq_getElem?_getD, List.getD_eq_getElem?_getD, List.getElem?_take,
    if_pos h]

theorem parse_ok_dest {s : List Nat} {m : GzipMeta}
    (h : parse_gzip_header s = .ok m) :
    10 ≤ s.length ∧ s.take 2 = [31, 139] ∧ s.getD 2 0 = 8 ∧
    m.first10 = s.take 10 ∧ m.flg = s.getD 3 0 ∧
    m.mtime = le32 ((s.drop 4).take 4) ∧
    ∃ i1 i2 i3,
      parseFextra s m.flg 10 = .ok (m.extra_len_off, m.extra_end, i1) ∧
      parseName s m.flg i1 = .ok (m.fname_start, m.fname_end, i2) ∧
      parseComment s m.flg i2 = .ok (m.fcomment_start, m.fcomment_end, i3) ∧
      (m.fhcrc_off, m.payload_start) = parseHcrc m.flg i3 := by
  simp only [parse_gzip_header] at h
  split at h
  · exact absurd h (by simp)
  rename_i h10
  split at h
  · exact absurd h (by simp)
  rename_i hmagic
  split at h
  · exact absurd h (by simp)
  rename_i hcm
  have hlen : 10 ≤ s.length := by
    simp only [not_lt, List.length_take] at h10
    omega
  cases hfe : parseFextra s ((s.take 10).getD 3 0) 10 with
  | error e => rw [hfe] at h; exact absurd h (by simp)
  | ok v1 =>
    obtain ⟨elo, ee, i1⟩ := v1
    rw [hfe] at h
    dsimp only at h
    cases hfn : parseName s ((s.take 10).getD 3 0) i1 with
    | error e => rw [hfn] at h; exact absurd h (by simp)
    | ok v2 =>
      obtain ⟨fns, fne, i2⟩ := v2
      rw [hfn] at h
      dsimp only at h
      cases hfc : parseComment s ((s.take 10).getD 3 0) i2 with
      | error e => rw [hfc] at h; exact absurd h (by simp)
      | ok v3 =>
        obtain ⟨fcs, fce, i3⟩ := v3
        rw [hfc] at h
        dsimp only at h
        have hgd3 : (s.take 10).getD 3 0 = s.getD 3 0 :=
          getD_take_of_lt s (by omega)
        injection h with h
        subst h
        refine ⟨hlen,
          by rw [← take_take_of_le s (by omega : 2 ≤ 10)]; simpa using hmagic,
          by rw [← getD_take_of_lt s (by omega : 2 < 10)]; simpa using hcm,
          rfl, hgd3, ?_, i1, i2, i3, ?_, ?_, ?_, ?_⟩
        · show le32 (((s.take 10).drop 4).take 4) = le32 ((s.drop 4).take 4)
          rw [List.drop_take]
          congr 1
          exact take_take_of_le _ (by omega)
        · exact hfe
        · exact hfn
        · exact hfc
        · exact Prod.mk.eta

theorem parse_unfold (s : List Nat) (h10 : 10 ≤ s.length)
    (hm : s.take 2 = [31, 139]) (hc : s.getD 2 0 = 8) :
    parse_gzip_header s =
      match parseFextra s (s.getD 3 0) 10 with
      | .error e => .error e
      | .ok (elo, ee, i1) =>
        match parseName s (s.getD 3 0) i1 with
        | .error e => .error e
        | .ok (fns, fne, i2) =>
          match parseComment s (s.getD 3 0) i2 with
          | .error e => .error e
          | .ok (fcs, fce, i3) =>
            .ok ⟨s.take 10, s.getD 3 0, le32 ((s.drop 4).take 4),
                 elo, ee, fns, fne, fcs, fce,
                 (parseHcrc (s.getD 3 0) i3).1, (parseHcrc (s.getD 3 0) i3).2⟩ := by
  simp only [parse_gzip_header]
  rw [if_neg (by simp only [not_lt, List.length_take]; omega),
      if_neg (by rw [take_take_of_le s (by omega : 2 ≤ 10)]; exact fun hh => hh hm),
      if_neg (by rw [getD_take_of_lt s (by omega : 2 < 10)]; exact fun hh => hh hc),
      getD_take_of_lt s (by omega : 3 < 10), List.drop_take,
      take_take_of_le _ (by omega : 4 ≤ 10 - 4)]

/-- The flag byte written by `rewrite_header_only`:
`flags & ~FNAME & ~FHCRC`. -/
def newFlg (flg : Nat) : Nat := pyAndNotMask (pyAndNotMask flg FNAME) FHCRC

set_option maxHeartbeats 1000000 in
set_option maxRecDepth 4096 in
theorem flg_clear_facts : ∀ n, n < 256 →
    newFlg n &&& FNAME = 0 ∧
    newFlg n &&& FHCRC = 0 ∧
    newFlg n &&& FEXTRA = n &&& FEXTRA ∧
    newFlg n &&& FCOMMENT = n &&& FCOMMENT ∧
    (pyAndNotMask n FNAME) &&& FHCRC = n &&& FHCRC ∧
    newFlg n < 256 := by decide

/-- In `rewrite_header_only` the flag byte equals `flags & ~FNAME &
~FHCRC` whether or not the FHCRC branch ran. -/
theorem new_flg_if_eq (flg : Nat) (hb : flg < 256) :
    (if flg &&& FHCRC ≠ 0 then pyAndNotMask (pyAndNotMask flg FNAME) FHCRC
     else pyAndNotMask flg FNAME) = newFlg flg := by
  by_cases h : flg &&& FHCRC ≠ 0
  · rw [if_pos h]; rfl
  · rw [if_neg h]
    push_neg at h
    have h3 : pyAndNotMask flg FNAME &&& FHCRC = 0 :=
      ((flg_clear_facts flg hb).2.2.2.2.1).trans h
    show pyAndNotMask flg FNAME =
      pyAndNotMask flg FNAME - (pyAndNotMask flg FNAME &&& FHCRC)
    omega

/-- The position right after the (optional) FEXTRA field. -/
def idxAfterExtra (s : List Nat) : Nat :=
  if s.getD 3 0 &&& FEXTRA ≠ 0 then 12 + le16 ((s.drop 10).take 2) else 10

theorem parseFextra_skip {flg : Nat} (s : List Nat) (idx : Nat)
    (h4 : flg &&& FEXTRA = 0) :
    parseFextra s flg idx = .ok (none, none, idx) := by
  simp [parseFextra, h4]

theorem parseFextra_eval_ok {flg : Nat} (s : List Nat)
    (h4 : flg &&& FEXTRA ≠ 0) (hl : 12 ≤ s.length) :
    parseFextra s flg 10 =
      .ok (some 10, some (12 + le16 ((s.drop 10).take 2)),
           12 + le16 ((s.drop 10).take 2)) := by
  simp only [parseFextra, if_pos h4]
  rw [if_neg (by simp only [not_lt, List.length_take, List.length_drop]; omega)]

theorem parseFextra_eval_err {flg : Nat} (s : List Nat)
    (h4 : flg &&& FEXTRA ≠ 0) (hl : s.length < 12) :
    parseFextra s flg 10 = .error .truncatedExtraLength := by
  simp only [parseFextra, if_pos h4]
  rw [if_pos (by simp only [List.length_take, List.length_drop]; omega)]

theorem parseName_skip {flg : Nat} (s : List Nat) (idx : Nat)
    (h8 : flg &&& FNAME = 0) :
    parseName s flg idx = .ok (none, none, idx) := by
  simp [parseName, h8]

theorem parseName_eval_err {flg : Nat} (s : List Nat) (idx : Nat)
    (h8 : flg &&& FNAME ≠ 0) (hscan : scanNul (s.drop idx) idx = none) :
    parseName s flg idx = .error .truncatedFNAME := by
  simp [parseName, h8, hscan]

theorem parseComment_skip {flg : Nat} (s : List Nat) (idx : Nat)
    (h16 : flg &&& FCOMMENT = 0) :
    parseComment s flg idx = .ok (none, none, idx) := by
  simp [parseComment, h16]

theorem parseComment_eval_err {flg : Nat} (s : List Nat) (idx : Nat)
    (h16 : flg &&& FCOMMENT ≠ 0) (hscan : scanNul (s.drop idx) idx = none) :
    parseComment s flg idx = .error .truncatedFCOMMENT := by
  simp [parseComment, h16, hscan]

theorem processFile_of_check_error {fs : Fs} {p : Path} {e : CleanError}
    (d v : Bool) (w : Weff)
    (h : needs_cleaning_at fs p = .error e) :
    processFile d v w fs p =
      (fs, .errored, if v then [.errorChecking p] else []) := by
  simp [processFile, h]

/-- C5 counterexample: the claim says a stream with fewer than the
declared `xlen` bytes of FEXTRA data fails with `TruncatedExtra`, and a
stream with fewer than 2 bytes after the FHCRC flag fails with
`TruncatedCrc`.  The code only *seeks* over both spans, so parsing
SUCCEEDS on a 14-byte file declaring `xlen = 5` with 2 data bytes
(`payload_start = 17`, past end of stream), and on an 11-byte file with
the FHCRC bit and a single remaining byte (`payload_start = 12`). -/
theorem c5_parse_accepts_truncated_extra_and_crc :
    parse_gzip_header [31, 139, 8, 4, 1, 0, 0, 0, 0, 3, 5, 0, 1, 2] =
      .ok ⟨[31, 139, 8, 4, 1, 0, 0, 0, 0, 3], 4, 1, some 10, some 17,
           none, none, none, none, none, 17⟩ ∧
    ([31, 139, 8, 4, 1, 0, 0, 0, 0, 3, 5, 0, 1, 2] : List Nat).length = 14 ∧
    parse_gzip_header [31, 139, 8, 2, 0, 0, 0, 0, 0, 3, 77] =
      .ok ⟨[31, 139, 8, 2, 0, 0, 0, 0, 0, 3], 2, 0, none, none,
           none, none, none, none, some 10, 12⟩ ∧
    ([31, 139, 8, 2, 0, 0, 0, 0, 0, 3, 77] : List Nat).length = 11 :=
  ⟨rfl, rfl, rfl, rfl⟩

/-- C5 (amended): truncation is detected exactly where the parser
*reads*: a stream ending inside the 2-byte FEXTRA length field fails
with `Truncated EXTRA length`; an FNAME or FCOMMENT with no NUL before
end of stream fails with `Truncated FNAME` / `Truncated FCOMMENT`
(stated via the scan position `idxAfterExtra`); truncated FEXTRA
*data* and a truncated FHCRC are NOT detected (the seeks succeed past
end of stream).  On any check failure the driver leaves the file
system untouched and records the file as errored. -/
theorem c5_truncation_behavior :
    (∀ s : List Nat, 10 ≤ s.length → s.take 2 = [31, 139] → s.getD 2 0 = 8 →
      s.getD 3 0 &&& FEXTRA ≠ 0 → s.length < 12 →
      parse_gzip_header s = .error .truncatedExtraLength) ∧
    (∀ s : List Nat, 10 ≤ s.length → s.take 2 = [31, 139] → s.getD 2 0 = 8 →
      (s.getD 3 0 &&& FEXTRA ≠ 0 → 12 ≤ s.length) →
      s.getD 3 0 &&& FNAME ≠ 0 →
      (∀ b ∈ s.drop (idxAfterExtra s), b ≠ 0) →
      parse_gzip_header s = .error .truncatedFNAME) ∧
    (∀ s : List Nat, 10 ≤ s.length → s.take 2 = [31, 139] → s.getD 2 0 = 8 →
      (s.getD 3 0 &&& FEXTRA ≠ 0 → 12 ≤ s.length) →
      s.getD 3 0 &&& FNAME = 0 → s.getD 3 0 &&& FCOMMENT ≠ 0 →
      (∀ b ∈ s.drop (idxAfterExtra s), b ≠ 0) →
      parse_gzip_header s = .error .truncatedFCOMMENT) ∧
    (∀ (fs : Fs) (p : Path) (d v : Bool) (w : Weff) (e : CleanError),
      needs_cleaning_at fs p = .error e →
      (processFile d v w fs p).1 = fs ∧
      (processFile d v w fs p).2.1 = .errored) := by
  refine ⟨?_, ?_, ?_, ?_⟩
  · intro s h10 hm hc h4 hlen
    rw [parse_unfold s h10 hm hc, parseFextra_eval_err s h4 hlen]
  · intro s h10 hm hc hx h8 hnul
    have hscan : scanNul (s.drop (idxAfterExtra s)) (idxAfterExtra s) = none :=
      (scanNul_eq_none_iff _ _).mpr hnul
    rw [parse_unfold s h10 hm hc]
    by_cases h4 : s.getD 3 0 &&& FEXTRA ≠ 0
    · rw [parseFextra_eval_ok s h4 (hx h4)]
      dsimp only
      rw [parseName_eval_err s _ h8
        (by rwa [idxAfterExtra, if_pos h4] at hscan)]
    · push_neg at h4
      rw [parseFextra_skip s 10 h4]
      dsimp only
      rw [parseName_eval_err s 10 h8
        (by rwa [idxAfterExtra, if_neg (not_ne_iff.mpr h4)] at hscan)]
  · intro s h10 hm hc hx h8 h16 hnul
    have hscan : scanNul (s.drop (idxAfterExtra s)) (idxAfterExtra s) = none :=
      (scanNul_eq_none_iff _ _).mpr hnul
    rw [parse_unfold s h10 hm hc]
    by_cases h4 : s.getD 3 0 &&& FEXTRA ≠ 0
    · rw [parseFextra_eval_ok s h4 (hx h4)]
      dsimp only
      rw [parseName_skip s _ h8]
      dsimp only
      rw [parseComment_eval_err s _ h16
        (by rwa [idxAfterExtra, if_pos h4] at hscan)]
    · push_neg at h4
      rw [parseFextra_skip s 10 h4]
      dsimp only
      rw [parseName_skip s 10 h8]
      dsimp only
      rw [parseComment_eval_err s 10 h16
        (by rwa [idxAfterExtra, if_neg (not_ne_iff.mpr h4)] at hscan)]
  · intro fs p d v w e h
    rw [processFile_of_check_error d v w h]
    exact ⟨rfl, rfl⟩

/-- C5 witness: the amended theorem applied to concrete truncated
streams (FEXTRA length cut short; FNAME and FCOMMENT with no NUL) and
to a driver call on a malformed file. -/
theorem c5_truncation_behavior_witness :
    parse_gzip_header [31, 139, 8, 4, 0, 0, 0, 0, 0, 3, 9] =
      .error .truncatedExtraLength ∧
    parse_gzip_header [31, 139, 8, 8, 0, 0, 0, 0, 0, 3, 65, 66] =
      .error .truncatedFNAME ∧
    parse_gzip_header [31, 139, 8, 16, 0, 0, 0, 0, 0, 3, 65] =
      .error .truncatedFCOMMENT ∧
    (processFile true true .ok (fun _ => some [1, 2, 3]) [97]).2.1 = .errored :=
  ⟨c5_truncation_behavior.1 _ (by decide) (by decide) (by decide) (by decide)
      (by decide),
   c5_truncation_behavior.2.1 _ (by decide) (by decide) (by decide)
      (by intro h; exact absurd h (by decide)) (by decide) (by decide),
   c5_truncation_behavior.2.2.1 _ (by decide) (by decide) (by decide)
      (by intro h; exact absurd h (by decide)) (by decide) (by decide) (by decide),
   (c5_truncation_behavior.2.2.2 (fun _ => some [1, 2, 3]) [97] true true .ok
      (.parseFail .notGzipMember) rfl).2⟩

theorem needs_cleaning_at_some {fs : Fs} {p : Path} {c : List Nat} {m : GzipMeta}
    (hc : fs p = some c) (hm : parse_gzip_header c = .ok m) :
    needs_cleaning_at fs p =
      .ok (decide (m.mtime ≠ 0), decide (m.flg &&& FNAME ≠ 0),
           decide (m.flg &&& FHCRC ≠ 0), m.flg, m.mtime) := by
  simp [needs_cleaning_at, hc, needs_cleaning, hm]

theorem clean_file_fs_eval_ok {fs : Fs} {p : Path} {c : List Nat} {m : GzipMeta}
    (hc : fs p = some c) (hm : parse_gzip_header c = .ok m) :
    clean_file_fs fs p .ok =
      (fun q => if q = p then some (rewrite_header_only c m)
                else if q = tmpPath p then none else fs q, .ok ()) := by
  simp [clean_file_fs, hc, hm]

theorem clean_file_fs_eval_fail {fs : Fs} {p : Path} {c : List Nat} {m : GzipMeta}
    (n : Nat) (hc : fs p = some c) (hm : parse_gzip_header c = .ok m) :
    clean_file_fs fs p (.fail n) =
      (fun q => if q = tmpPath p then some ((rewrite_header_only c m).take n)
                else fs q, .error .ioFail) := by
  simp [clean_file_fs, hc, hm]

theorem processFile_skip {fs : Fs} {p : Path} {c : List Nat} {m : GzipMeta}
    (d v : Bool) (w : Weff)
    (hc : fs p = some c) (hm : parse_gzip_header c = .ok m)
    (h0 : m.mtime = 0) (h8 : m.flg &&& FNAME = 0) :
    processFile d v w fs p = (fs, .skipped, []) := by
  simp [processFile, needs_cleaning_at_some hc hm, h0, h8]

theorem processFile_dry {fs : Fs} {p : Path} {c : List Nat} {m : GzipMeta}
    (v : Bool) (w : Weff)
    (hc : fs p = some c) (hm : parse_gzip_header c = .ok m)
    (hneed : m.mtime ≠ 0 ∨ m.flg &&& FNAME ≠ 0) :
    processFile true v w fs p =
      (fs, .wouldClean, if v then [.wouldClean p] else []) := by
  rcases hneed with h | h <;>
    simp [processFile, needs_cleaning_at_some hc hm, h]

theorem processFile_clean_ok {fs : Fs} {p : Path} {c : List Nat} {m : GzipMeta}
    (v : Bool)
    (hc : fs p = some c) (hm : parse_gzip_header c = .ok m)
    (hneed : m.mtime ≠ 0 ∨ m.flg &&& FNAME ≠ 0) :
    processFile false v .ok fs p =
      (fun q => if q = p then some (rewrite_header_only c m)
                else if q = tmpPath p then none else fs q, .cleaned,
       if v then [.cleaned p] else []) := by
  rcases hneed with h | h <;>
    simp [processFile, needs_cleaning_at_some hc hm, h,
      clean_file_fs_eval_ok hc hm]

theorem processFile_clean_fail {fs : Fs} {p : Path} {c : List Nat} {m : GzipMeta}
    (v : Bool) (n : Nat)
    (hc : fs p = some c) (hm : parse_gzip_header c = .ok m)
    (hneed : m.mtime ≠ 0 ∨ m.flg &&& FNAME ≠ 0) :
    processFile false v (.fail n) fs p =
      (fun q => if q = tmpPath p then some ((rewrite_header_only c m).take n)
                else fs q, .cleanFailed,
       if v then [.errorCleaning p] else []) := by
  rcases hneed with h | h <;>
    simp [processFile, needs_cleaning_at_some hc hm, h,
      clean_file_fs_eval_fail n hc hm]

/-- C2: for a file whose header parses, the (non-dry-run) driver loop
body rewrites the file if and only if `mtime ≠ 0` or the FNAME bit is
set; when neither holds — in particular for a file with only FHCRC set
and MTIME zero — the file system is returned untouched. -/
theorem c2_rewrite_iff_mtime_or_fname {fs : Fs} {p : Path} {c : List Nat}
    {m : GzipMeta} (v : Bool)
    (hc : fs p = some c) (hm : parse_gzip_header c = .ok m) :
    ((processFile false v .ok fs p).2.1 = .cleaned ↔
      (m.mtime ≠ 0 ∨ m.flg &&& FNAME ≠ 0)) ∧
    ((processFile false v .ok fs p).2.1 = .cleaned →
      (processFile false v .ok fs p).1 p = some (rewrite_header_only c m)) ∧
    (m.mtime = 0 → m.flg &&& FNAME = 0 →
      processFile false v .ok fs p = (fs, .skipped, [])) := by
  by_cases hneed : m.mtime ≠ 0 ∨ m.flg &&& FNAME ≠ 0
  · rw [processFile_clean_ok v hc hm hneed]
    refine ⟨⟨fun _ => hneed, fun _ => rfl⟩, fun _ => by simp, ?_⟩
    intro h0 h8
    exact absurd hneed (by simp [h0, h8])
  · push_neg at hneed
    rw [processFile_skip false v .ok hc hm hneed.1 hneed.2]
    exact ⟨⟨fun h => by exact absurd h (by simp), fun h => absurd h (by simp [hneed.1, hneed.2])⟩,
      fun h => by exact absurd h (by simp), fun _ _ => rfl⟩

/-- C2 witness: a file with FHCRC set, MTIME zero and no FNAME is left
byte-for-byte untouched, while a file with nonzero MTIME is cleaned. -/
theorem c2_rewrite_iff_mtime_or_fname_witness :
    processFile false false .ok
      (fun q => if q = [103] then some [31, 139, 8, 2, 0, 0, 0, 0, 0, 3, 7, 7]
                else none) [103] =
      ((fun q => if q = [103] then some [31, 139, 8, 2, 0, 0, 0, 0, 0, 3, 7, 7]
                 else none), .skipped, []) ∧
    (processFile false false .ok
      (fun q => if q = [104] then some [31, 139, 8, 0, 9, 0, 0, 0, 0, 3, 5]
                else none) [104]).2.1 = .cleaned :=
  ⟨(c2_rewrite_iff_mtime_or_fname false (by decide)
      (rfl : parse_gzip_header [31, 139, 8, 2, 0, 0, 0, 0, 0, 3, 7, 7] =
        .ok ⟨[31, 139, 8, 2, 0, 0, 0, 0, 0, 3], 2, 0, none, none, none, none,
             none, none, some 10, 12⟩)).2.2 rfl rfl,
   (c2_rewrite_iff_mtime_or_fname false (by decide)
      (rfl : parse_gzip_header [31, 139, 8, 0, 9, 0, 0, 0, 0, 3, 5] =
        .ok ⟨[31, 139, 8, 0, 9, 0, 0, 0, 0, 3], 0, 9, none, none, none, none,
             none, none, none, 10⟩)).1.mpr (by decide)⟩

deriving instance DecidableEq for Except

/-- C6: the claim says the dry-run `changed` count equals the number of
files the predicate found needing cleaning.  In the code the
`changed += 1` statement sits only in the non-dry-run branch, so a dry
run over a directory with one file that needs cleaning (nonzero MTIME)
returns and prints `changed = 0` (the summary line says "0 would be
cleaned") even though the predicate reported the file as needing
cleaning.  No file is written, which is the part of the claim the code
does satisfy. -/
theorem c6_dry_run_changed_is_zero :
    (clean_gzip_headers
      (fun q => if q = [97] then some [31, 139, 8, 0, 9, 0, 0, 0, 0, 3, 5]
                else none)
      [[97]] true false (fun _ => .ok)).total = 1 ∧
    (clean_gzip_headers
      (fun q => if q = [97] then some [31, 139, 8, 0, 9, 0, 0, 0, 0, 3, 5]
                else none)
      [[97]] true false (fun _ => .ok)).changed = 0 ∧
    (clean_gzip_headers
      (fun q => if q = [97] then some [31, 139, 8, 0, 9, 0, 0, 0, 0, 3, 5]
                else none)
      [[97]] true false (fun _ => .ok)).errors = 0 ∧
    (clean_gzip_headers
      (fun q => if q = [97] then some [31, 139, 8, 0, 9, 0, 0, 0, 0, 3, 5]
                else none)
      [[97]] true false (fun _ => .ok)).fs [97] =
      some [31, 139, 8, 0, 9, 0, 0, 0, 0, 3, 5] ∧
    needs_cleaning [31, 139, 8, 0, 9, 0, 0, 0, 0, 3, 5] =
      .ok (true, false, false, 0, 9) ∧
    (mainModel
      (fun q => if q = [97] then some [31, 139, 8, 0, 9, 0, 0, 0, 0, 3, 5]
                else none)
      [[97]] true false false (fun _ => .ok)).2 = [Msg.dryRunSummary 1 0 0] := by
  refine ⟨by decide, by decide, by decide, by decide, rfl, by decide⟩

/-- C3 counterexample: the claim says that on a failing rewrite the
temporary file is discarded (removed).  The code's `with open(tmp)`
block only closes the temporary file on the error path — nothing
removes it — so after an interrupted copy the temporary file exists
(here with the 0 bytes written so far) where before the call there was
no such file. -/
theorem c3_tmp_file_left_behind :
    (clean_file_fs
      (fun q => if q = [97] then some [31, 139, 8, 0, 9, 0, 0, 0, 0, 3, 5]
                else none)
      [97] (.fail 0)).2 = .error .ioFail ∧
    (clean_file_fs
      (fun q => if q = [97] then some [31, 139, 8, 0, 9, 0, 0, 0, 0, 3, 5]
                else none)
      [97] (.fail 0)).1 (tmpPath [97]) = some [] ∧
    (fun q => if q = [97] then some ([31, 139, 8, 0, 9, 0, 0, 0, 0, 3, 5] : List Nat)
              else none) (tmpPath [97]) = none := by
  refine ⟨by decide, by decide, by decide⟩

/-- C3 (amended): if any step of cleaning a single file fails, the
original file's bytes are left completely unchanged and the rename
never happens — the original is mutated only by the single rename
after a complete copy — but the temporary file is NOT removed on
failure: only paths other than `tmpPath p` are guaranteed untouched.
On success the only changes are the rename target `p` and the
(removed) temporary file. -/
theorem c3_failure_leaves_original (fs : Fs) (p : Path) (w : Weff) :
    ((clean_file_fs fs p w).2 ≠ .ok () →
      (clean_file_fs fs p w).1 p = fs p ∧
      ∀ q, q ≠ tmpPath p → (clean_file_fs fs p w).1 q = fs q) ∧
    ((clean_file_fs fs p w).2 = .ok () →
      ∃ c m, fs p = some c ∧ parse_gzip_header c = .ok m ∧
        (clean_file_fs fs p w).1 p = some (rewrite_header_only c m) ∧
        ∀ q, q ≠ p → q ≠ tmpPath p → (clean_file_fs fs p w).1 q = fs q) := by
  cases hc : fs p with
  | none =>
      refine ⟨fun _ => ?_, fun hok => ?_⟩
      · simp [clean_file_fs, hc]
      · simp [clean_file_fs, hc] at hok
  | some c =>
      cases hm : parse_gzip_header c with
      | error e =>
          refine ⟨fun _ => ?_, fun hok => ?_⟩
          · simp [clean_file_fs, hc, hm]
          · simp [clean_file_fs, hc, hm] at hok
      | ok m =>
          cases w with
          | ok =>
              refine ⟨fun hne => absurd ?_ hne, fun _ => ?_⟩
              · rw [clean_file_fs_eval_ok hc hm]
              · rw [clean_file_fs_eval_ok hc hm]
                refine ⟨c, m, rfl, hm, by simp, fun q hq1 hq2 => ?_⟩
                simp [hq1, hq2]
          | fail n =>
              refine ⟨fun _ => ?_, fun hok => ?_⟩
              · rw [clean_file_fs_eval_fail n hc hm]
                refine ⟨?_, fun q hq => ?_⟩
                · show (if p = tmpPath p then
                      some ((rewrite_header_only c m).take n) else fs p) = some c
                  rw [if_neg (tmpPath_ne_self p)]
                  exact hc
                · simp [hq]
              · rw [clean_file_fs_eval_fail n hc hm] at hok
                exact absurd hok (by simp)

/-- C3 witness: the amended theorem applied to a concrete interrupted
copy (the original keeps its bytes) and to a concrete successful run
(the original is replaced by the rewrite). -/
theorem c3_failure_leaves_original_witness :
    (clean_file_fs
      (fun q => if q = [97] then some [31, 139, 8, 0, 9, 0, 0, 0, 0, 3, 5]
                else none)
      [97] (.fail 3)).1 [97] = some [31, 139, 8, 0, 9, 0, 0, 0, 0, 3, 5] ∧
    (clean_file_fs
      (fun q => if q = [97] then some [31, 139, 8, 0, 9, 0, 0, 0, 0, 3, 5]
                else none)
      [97] .ok).1 [97] = some [31, 139, 8, 0, 0, 0, 0, 0, 0, 3, 5] := by
  constructor
  · have h := ((c3_failure_leaves_original
      (fun q => if q = [97] then some [31, 139, 8, 0, 9, 0, 0, 0, 0, 3, 5]
                else none) [97] (.fail 3)).1 (by decide)).1
    exact h.trans (by decide)
  · obtain ⟨c, m, hc, hm, hp, -⟩ := (c3_failure_leaves_original
      (fun q => if q = [97] then some [31, 139, 8, 0, 9, 0, 0, 0, 0, 3, 5]
                else none) [97] .ok).2 (by decide)
    rw [hp]
    have hc' : c = [31, 139, 8, 0, 9, 0, 0, 0, 0, 3, 5] := by
      simpa using hc.symm
    subst hc'
    have hm' : m = ⟨[31, 139, 8, 0, 9, 0, 0, 0, 0, 3], 0, 9, none, none, none,
        none, none, none, none, 10⟩ := by
      have : parse_gzip_header [31, 139, 8, 0, 9, 0, 0, 0, 0, 3, 5] =
          .ok ⟨[31, 139, 8, 0, 9, 0, 0, 0, 0, 3], 0, 9, none, none, none,
               none, none, none, none, 10⟩ := rfl
      rw [this] at hm
      injection hm with hm
      exact hm.symm
    subst hm'
    decide

theorem processFile_outcome_eq (d v : Bool) (w : Weff) (fs : Fs) (p : Path) :
    (processFile d v w fs p).2.1 = fileOutcome d w (fs p) := by
  cases hc : fs p with
  | none =>
      have hna : needs_cleaning_at fs p = .error .ioFail := by
        simp [needs_cleaning_at, hc]
      rw [processFile_of_check_error d v w hna]
      simp [fileOutcome]
  | some c =>
      cases hm : parse_gzip_header c with
      | error e =>
          have hna : needs_cleaning_at fs p = .error (.parseFail e) := by
            simp [needs_cleaning_at, hc, needs_cleaning, hm]
          rw [processFile_of_check_error d v w hna]
          simp [fileOutcome, needs_cleaning, hm]
      | ok m =>
          have hfo : fileOutcome d w (some c) =
              if m.mtime ≠ 0 ∨ m.flg &&& FNAME ≠ 0 then
                if d then .wouldClean
                else match w with
                  | .ok => .cleaned
                  | .fail _ => .cleanFailed
              else .skipped := by
            simp only [fileOutcome, needs_cleaning, hm]
            by_cases hneed : m.mtime ≠ 0 ∨ m.flg &&& FNAME ≠ 0
            · rcases hneed with h | h <;>
                simp [h, decide_eq_true_eq]
            · push_neg at hneed
              simp [hneed.1, hneed.2]
          rw [hfo]
          by_cases hneed : m.mtime ≠ 0 ∨ m.flg &&& FNAME ≠ 0
          · rw [if_pos hneed]
            cases d with
            | true =>
                rw [processFile_dry v w hc hm hneed]
                rfl
            | false =>
                cases w with
                | ok =>
                    rw [processFile_clean_ok v hc hm hneed]
                    rfl
                | fail n =>
                    rw [processFile_clean_fail v n hc hm hneed]
                    rfl
          · rw [if_neg hneed]
            push_neg at hneed
            rw [processFile_skip d v w hc hm hneed.1 hneed.2]

theorem processFile_fs_other (d v : Bool) (w : Weff) (fs : Fs) (p q : Path)
    (hq1 : q ≠ p) (hq2 : q ≠ tmpPath p) :
    (processFile d v w fs p).1 q = fs q := by
  cases hc : fs p with
  | none =>
      have hna : needs_cleaning_at fs p = .error .ioFail := by
        simp [needs_cleaning_at, hc]
      rw [processFile_of_check_error d v w hna]
  | some c =>
      cases hm : parse_gzip_header c with
      | error e =>
          have hna : needs_cleaning_at fs p = .error (.parseFail e) := by
            simp [needs_cleaning_at, hc, needs_cleaning, hm]
          rw [processFile_of_check_error d v w hna]
      | ok m =>
          by_cases hneed : m.mtime ≠ 0 ∨ m.flg &&& FNAME ≠ 0
          · cases d with
            | true => rw [processFile_dry v w hc hm hneed]
            | false =>
                cases w with
                | ok =>
                    rw [processFile_clean_ok v hc hm hneed]
                    simp [hq1, hq2]
                | fail n =>
                    rw [processFile_clean_fail v n hc hm hneed]
                    simp [hq2]
          · push_neg at hneed
            rw [processFile_skip d v w hc hm hneed.1 hneed.2]

theorem processFile_msgs_nonverbose (d : Bool) (w : Weff) (fs : Fs) (p : Path) :
    (processFile d false w fs p).2.2 = [] := by
  cases hc : fs p with
  | none =>
      have hna : needs_cleaning_at fs p = .error .ioFail := by
        simp [needs_cleaning_at, hc]
      rw [processFile_of_check_error d false w hna]
      rfl
  | some c =>
      cases hm : parse_gzip_header c with
      | error e =>
          have hna : needs_cleaning_at fs p = .error (.parseFail e) := by
            simp [needs_cleaning_at, hc, needs_cleaning, hm]
          rw [processFile_of_check_error d false w hna]
          rfl
      | ok m =>
          by_cases hneed : m.mtime ≠ 0 ∨ m.flg &&& FNAME ≠ 0
          · cases d with
            | true =>
                rw [processFile_dry false w hc hm hneed]
                rfl
            | false =>
                cases w with
                | ok =>
                    rw [processFile_clean_ok false hc hm hneed]
                    rfl
                | fail n =>
                    rw [processFile_clean_fail false n hc hm hneed]
                    rfl
          · push_neg at hneed
            rw [processFile_skip d false w hc hm hneed.1 hneed.2]

theorem foldl_run_spec (d v : Bool) (weff : Path → Weff) :
    ∀ (l : List Path) (st : RunResult), l.Nodup →
    (∀ p ∈ l, ∀ q ∈ l, q ≠ tmpPath p) →
    (l.foldl (stepFile d v weff) st).total = st.total + l.length ∧
    (l.foldl (stepFile d v weff) st).changed = st.changed +
      l.countP (fun p => decide (fileOutcome d (weff p) (st.fs p) = .cleaned)) ∧
    (l.foldl (stepFile d v weff) st).errors = st.errors +
      l.countP (fun p => isFailure (fileOutcome d (weff p) (st.fs p))) := by
  intro l
  induction l with
  | nil => intro st _ _; simp
  | cons p rest ih =>
      intro st hnd htmp
      have hpnotin : p ∉ rest := (List.nodup_cons.mp hnd).1
      have hndr : rest.Nodup := (List.nodup_cons.mp hnd).2
      have htmpr : ∀ a ∈ rest, ∀ q ∈ rest, q ≠ tmpPath a :=
        fun a ha q hq => htmp a (List.mem_cons_of_mem p ha) q (List.mem_cons_of_mem p hq)
      have hfs : ∀ q ∈ rest, (stepFile d v weff st p).fs q = st.fs q := by
        intro q hq
        show (processFile d v (weff p) st.fs p).1 q = st.fs q
        exact processFile_fs_other d v (weff p) st.fs p q
          (fun h => hpnotin (h ▸ hq))
          (htmp p (List.mem_cons_self p rest) q (List.mem_cons_of_mem p hq))
      obtain ⟨ht, hc, he⟩ := ih (stepFile d v weff st p) hndr htmpr
      have hcnt1 : rest.countP
            (fun a => decide (fileOutcome d (weff a)
              ((stepFile d v weff st p).fs a) = .cleaned)) =
          rest.countP
            (fun a => decide (fileOutcome d (weff a) (st.fs a) = .cleaned)) :=
        List.countP_congr (fun a ha => by rw [hfs a ha])
      have hcnt2 : rest.countP
            (fun a => isFailure (fileOutcome d (weff a)
              ((stepFile d v weff st p).fs a))) =
          rest.countP
            (fun a => isFailure (fileOutcome d (weff a) (st.fs a))) :=
        List.countP_congr (fun a ha => by rw [hfs a ha])
      rw [List.foldl_cons]
      refine ⟨?_, ?_, ?_⟩
      · rw [ht]
        show st.total + 1 + rest.length = st.total + (p :: rest).length
        simp only [List.length_cons]
        omega
      · rw [hc, hcnt1]
        show st.changed +
            (if (processFile d v (weff p) st.fs p).2.1 = .cleaned then 1 else 0) +
            rest.countP (fun a => decide (fileOutcome d (weff a) (st.fs a) = .cleaned)) =
          st.changed + (p :: rest).countP
            (fun a => decide (fileOutcome d (weff a) (st.fs a) = .cleaned))
        rw [List.countP_cons, processFile_outcome_eq]
        by_cases hcl : fileOutcome d (weff p) (st.fs p) = .cleaned
        · simp [hcl] <;> omega
        · simp [hcl] <;> omega
      · rw [he, hcnt2]
        show st.errors +
            (if (processFile d v (weff p) st.fs p).2.1 = .errored ∨
                (processFile d v (weff p) st.fs p).2.1 = .cleanFailed then 1 else 0) +
            rest.countP (fun a => isFailure (fileOutcome d (weff a) (st.fs a))) =
          st.errors + (p :: rest).countP
            (fun a => isFailure (fileOutcome d (weff a) (st.fs a)))
        rw [List.countP_cons, processFile_outcome_eq]
        cases ho : fileOutcome d (weff p) (st.fs p) <;>
          simp [isFailure] <;> omega

theorem stepFile_bound (d v : Bool) (weff : Path → Weff)
    (st : RunResult) (p : Path) :
    (stepFile d v weff st p).total = st.total + 1 ∧
    (stepFile d v weff st p).changed + (stepFile d v weff st p).errors ≤
      st.changed + st.errors + 1 := by
  refine ⟨rfl, ?_⟩
  show st.changed + (if (processFile d v (weff p) st.fs p).2.1 = .cleaned then 1 else 0) +
      (st.errors + (if (processFile d v (weff p) st.fs p).2.1 = .errored ∨
        (processFile d v (weff p) st.fs p).2.1 = .cleanFailed then 1 else 0)) ≤
      st.changed + st.errors + 1
  cases h : (processFile d v (weff p) st.fs p).2.1 <;> simp [h] <;> omega

theorem foldl_run_bound (d v : Bool) (weff : Path → Weff) :
    ∀ (l : List Path) (st : RunResult),
    (l.foldl (stepFile d v weff) st).total = st.total + l.length ∧
    (l.foldl (stepFile d v weff) st).changed +
      (l.foldl (stepFile d v weff) st).errors ≤
      st.changed + st.errors + l.length := by
  intro l
  induction l with
  | nil => intro st; simp
  | cons p rest ih =>
      intro st
      obtain ⟨ht, hb⟩ := ih (stepFile d v weff st p)
      obtain ⟨ht1, hb1⟩ := stepFile_bound d v weff st p
      rw [List.foldl_cons]
      refine ⟨by rw [ht, ht1]; simp only [List.length_cons]; omega, ?_⟩
      calc (List.foldl (stepFile d v weff) (stepFile d v weff st p) rest).changed +
            (List.foldl (stepFile d v weff) (stepFile d v weff st p) rest).errors
          ≤ (stepFile d v weff st p).changed + (stepFile d v weff st p).errors +
            rest.length := hb
        _ ≤ st.changed + st.errors + 1 + rest.length := by omega
        _ = st.changed + st.errors + (p :: rest).length := by
            simp only [List.length_cons]; omega

theorem run_total_bound (fs : Fs) (targets : List Path) (d v : Bool)
    (weff : Path → Weff) :
    (clean_gzip_headers fs targets d v weff).total = targets.length ∧
    (clean_gzip_headers fs targets d v weff).changed +
      (clean_gzip_headers fs targets d v weff).errors ≤
      (clean_gzip_headers fs targets d v weff).total := by
  by_cases h : targets = []
  · subst h
    simp [clean_gzip_headers]
  · unfold clean_gzip_headers
    rw [if_neg h]
    obtain ⟨ht, hb⟩ := foldl_run_bound d v weff
      (List.insertionSort PathLeR targets)
      { fs := fs, total := 0, changed := 0, errors := 0,
        msgs := if v then [.foundFiles targets.length] else [] }
    have hlen : (List.insertionSort PathLeR targets).length = targets.length :=
      (List.perm_insertionSort PathLeR targets).length_eq
    refine ⟨by rw [ht, hlen]; simp, ?_⟩
    rw [ht, hlen]
    dsimp only at hb ⊢
    omega

theorem run_counts (fs : Fs) (targets : List Path) (d v : Bool)
    (weff : Path → Weff) (hnd : targets.Nodup)
    (htmp : ∀ p ∈ targets, ∀ q ∈ targets, q ≠ tmpPath p) :
    (clean_gzip_headers fs targets d v weff).total = targets.length ∧
    (clean_gzip_headers fs targets d v weff).changed =
      targets.countP (fun p => decide (fileOutcome d (weff p) (fs p) = .cleaned)) ∧
    (clean_gzip_headers fs targets d v weff).errors =
      targets.countP (fun p => isFailure (fileOutcome d (weff p) (fs p))) := by
  by_cases h : targets = []
  · subst h
    simp [clean_gzip_headers]
  · unfold clean_gzip_headers
    rw [if_neg h]
    have hperm : (List.insertionSort PathLeR targets).Perm targets :=
      List.perm_insertionSort PathLeR targets
    obtain ⟨ht, hc, he⟩ := foldl_run_spec d v weff
      (List.insertionSort PathLeR targets)
      { fs := fs, total := 0, changed := 0, errors := 0,
        msgs := if v then [.foundFiles targets.length] else [] }
      (hperm.nodup_iff.mpr hnd)
      (fun a ha q hq => htmp a (hperm.mem_iff.mp ha) q (hperm.mem_iff.mp hq))
    refine ⟨by rw [ht, hperm.length_eq]; simp, ?_, ?_⟩
    · rw [hc]
      dsimp only
      rw [Nat.zero_add, hperm.countP_eq]
    · rw [he]
      dsimp only
      rw [Nat.zero_add, hperm.countP_eq]

theorem foldl_msgs_nonverbose (d : Bool) (weff : Path → Weff) :
    ∀ (l : List Path) (st : RunResult),
    (l.foldl (stepFile d false weff) st).msgs = st.msgs := by
  intro l
  induction l with
  | nil => intro st; rfl
  | cons p rest ih =>
      intro st
      rw [List.foldl_cons, ih]
      show st.msgs ++ (processFile d false (weff p) st.fs p).2.2 = st.msgs
      rw [processFile_msgs_nonverbose, List.append_nil]

theorem run_msgs_nonverbose (fs : Fs) (targets : List Path) (d : Bool)
    (weff : Path → Weff) :
    (clean_gzip_headers fs targets d false weff).msgs = [] := by
  by_cases h : targets = []
  · subst h; rfl
  · unfold clean_gzip_headers
    rw [if_neg h, foldl_msgs_nonverbose]
    rfl

theorem fileOutcome_cleaned_iff (c? : Option (List Nat)) :
    fileOutcome false .ok c? = .cleaned ↔ checkNeeds c? = true := by
  cases c? with
  | none => simp [fileOutcome, checkNeeds]
  | some c =>
      cases hn : needs_cleaning c with
      | error e => simp [fileOutcome, checkNeeds, hn]
      | ok r =>
          obtain ⟨nm, nf, nc, fl, mt⟩ := r
          by_cases hb : (nm || nf) = true
          · simp [fileOutcome, checkNeeds, hn, hb]
          · simp [fileOutcome, checkNeeds, hn, hb]

theorem fileOutcome_errs_iff (c? : Option (List Nat)) :
    isFailure (fileOutcome false .ok c?) = checkErrs c? := by
  cases c? with
  | none => simp [fileOutcome, checkErrs, isFailure]
  | some c =>
      cases hn : needs_cleaning c with
      | error e => simp [fileOutcome, checkErrs, isFailure, hn]
      | ok r =>
          obtain ⟨nm, nf, nc, fl, mt⟩ := r
          by_cases hb : (nm || nf) = true
          · simp [fileOutcome, checkErrs, isFailure, hn, hb]
          · simp [fileOutcome, checkErrs, isFailure, hn, hb]

/-- C10: the returned counters satisfy `changed + errors ≤ total` with
`total` the number of discovered files; a file counts as `cleaned`
only when the rewrite-and-replace succeeded (so the original path now
holds the rewritten bytes), and a file whose rewrite fails is tallied
`cleanFailed` (an error), never `cleaned`. -/
theorem c10_counter_invariants :
    (∀ (fs : Fs) (targets : List Path) (d v : Bool) (weff : Path → Weff),
      (clean_gzip_headers fs targets d v weff).total = targets.length ∧
      (clean_gzip_headers fs targets d v weff).changed +
        (clean_gzip_headers fs targets d v weff).errors ≤
        (clean_gzip_headers fs targets d v weff).total) ∧
    (∀ (fs : Fs) (p : Path) (v : Bool) (w : Weff),
      (processFile false v w fs p).2.1 = .cleaned →
      w = .ok ∧ ∃ c m, fs p = some c ∧ parse_gzip_header c = .ok m ∧
        (processFile false v w fs p).1 p = some (rewrite_header_only c m)) ∧
    (∀ (fs : Fs) (p : Path) (v : Bool) (n : Nat),
      checkNeeds (fs p) = true →
      (processFile false v (.fail n) fs p).2.1 = .cleanFailed) := by
  refine ⟨fun fs targets d v weff => run_total_bound fs targets d v weff,
    ?_, ?_⟩
  · intro fs p v w h
    rw [processFile_outcome_eq] at h
    cases hc : fs p with
    | none => rw [hc] at h; simp [fileOutcome] at h
    | some c =>
        rw [hc] at h
        cases hm : parse_gzip_header c with
        | error e => simp [fileOutcome, needs_cleaning, hm] at h
        | ok m =>
            have hh := h
            simp only [fileOutcome, needs_cleaning, hm] at hh
            by_cases hneed : m.mtime ≠ 0 ∨ m.flg &&& FNAME ≠ 0
            · cases w with
              | ok =>
                  refine ⟨rfl, c, m, rfl, hm, ?_⟩
                  rw [processFile_clean_ok v hc hm hneed]
                  simp
              | fail n =>
                  exfalso
                  rcases hneed with h1 | h1 <;> simp [h1] at hh
            · push_neg at hneed
              exfalso
              simp [hneed.1, hneed.2] at hh
  · intro fs p v n h
    rw [processFile_outcome_eq]
    cases hc : fs p with
    | none => rw [hc] at h; simp [checkNeeds] at h
    | some c =>
        rw [hc] at h
        cases hn : needs_cleaning c with
        | error e => rw [checkNeeds, hn] at h; exact absurd h (by simp)
        | ok r =>
            obtain ⟨nm, nf, nc, fl, mt⟩ := r
            rw [checkNeeds, hn] at h
            dsimp only at h
            simp only [fileOutcome, hn]
            rw [if_pos h]
            rfl

/-- C10 witness: the invariants applied to a concrete run (one good
file, one malformed) and to a concrete file whose rewrite is
interrupted. -/
theorem c10_counter_invariants_witness :
    (clean_gzip_headers
      (fun q => if q = [97] then some [31, 139, 8, 0, 9, 0, 0, 0, 0, 3, 5]
                else if q = [98] then some [0, 1] else none)
      [[97], [98]] false false (fun _ => .ok)).total = 2 ∧
    (clean_gzip_headers
      (fun q => if q = [97] then some [31, 139, 8, 0, 9, 0, 0, 0, 0, 3, 5]
                else if q = [98] then some [0, 1] else none)
      [[97], [98]] false false (fun _ => .ok)).changed +
      (clean_gzip_headers
        (fun q => if q = [97] then some [31, 139, 8, 0, 9, 0, 0, 0, 0, 3, 5]
                  else if q = [98] then some [0, 1] else none)
        [[97], [98]] false false (fun _ => .ok)).errors ≤ 2 ∧
    (processFile false false (.fail 4)
      (fun q => if q = [97] then some [31, 139, 8, 0, 9, 0, 0, 0, 0, 3, 5]
                else none) [97]).2.1 = .cleanFailed := by
  refine ⟨?_, ?_, ?_⟩
  · exact (c10_counter_invariants.1
      (fun q => if q = [97] then some [31, 139, 8, 0, 9, 0, 0, 0, 0, 3, 5]
                else if q = [98] then some [0, 1] else none)
      [[97], [98]] false false (fun _ => .ok)).1.trans (by decide)
  · have h := (c10_counter_invariants.1
      (fun q => if q = [97] then some [31, 139, 8, 0, 9, 0, 0, 0, 0, 3, 5]
                else if q = [98] then some [0, 1] else none)
      [[97], [98]] false false (fun _ => .ok))
    have h2 := h.2.trans_eq h.1
    exact h2.trans_eq (by decide)
  · exact c10_counter_invariants.2.2
      (fun q => if q = [97] then some [31, 139, 8, 0, 9, 0, 0, 0, 0, 3, 5]
                else none) [97] false 4 (by decide)

/-- C8: with a working file system (all writes succeed), distinct
target paths, and no target colliding with another target's temporary
path, the run returns `total` = number of files, `changed` = number of
files the predicate marks as needing cleaning, `errors` = number of
files whose check raises, and `changed + errors ≤ total`; a malformed
file is counted in `errors` and does not stop the remaining files from
being counted. -/
theorem c8_counts_per_file (fs : Fs) (targets : List Path) (v : Bool)
    (weff : Path → Weff) (hnd : targets.Nodup)
    (htmp : ∀ p ∈ targets, ∀ q ∈ targets, q ≠ tmpPath p)
    (hw : ∀ p ∈ targets, weff p = .ok) :
    (clean_gzip_headers fs targets false v weff).total = targets.length ∧
    (clean_gzip_headers fs targets false v weff).changed =
      targets.countP (fun p => checkNeeds (fs p)) ∧
    (clean_gzip_headers fs targets false v weff).errors =
      targets.countP (fun p => checkErrs (fs p)) ∧
    (clean_gzip_headers fs targets false v weff).changed +
      (clean_gzip_headers fs targets false v weff).errors ≤
      (clean_gzip_headers fs targets false v weff).total := by
  obtain ⟨ht, hc, he⟩ := run_counts fs targets false v weff hnd htmp
  refine ⟨ht, ?_, ?_, (run_total_bound fs targets false v weff).2⟩
  · rw [hc]
    refine List.countP_congr ?_
    intro p hp
    rw [hw p hp]
    simp [fileOutcome_cleaned_iff]
  · rw [he]
    refine List.countP_congr ?_
    intro p hp
    rw [hw p hp, fileOutcome_errs_iff]

/-- C8 witness: a directory of 10 `.gz` files — 3 with nonzero MTIME
(needing cleaning), 1 malformed, 6 already clean — yields
total = 10, changed = 3, errors = 1. -/
theorem c8_counts_per_file_witness :
    (clean_gzip_headers
      (fun q =>
        if q = [100] then some [31, 139, 8, 0, 0, 0, 0, 0, 0, 3, 1, 2]
        else if q = [101] then some [31, 139, 8, 0, 5, 0, 0, 0, 0, 3, 9]
        else if q = [102] then some [31, 139, 8, 0, 0, 0, 0, 0, 0, 3, 1]
        else if q = [103] then some [31, 139, 8, 0, 0, 0, 0, 0, 0, 3, 2]
        else if q = [104] then some [31, 139, 8, 0, 7, 0, 0, 0, 0, 3, 8]
        else if q = [105] then some [31, 139, 8, 0, 0, 0, 0, 0, 0, 3, 4]
        else if q = [106] then some [31, 139, 8, 0, 0, 0, 0, 0, 0, 3, 5]
        else if q = [107] then some [31, 139, 8, 0, 1, 1, 0, 0, 0, 3, 6]
        else if q = [108] then some [31, 139, 8, 0, 0, 0, 0, 0, 0, 3, 7]
        else if q = [109] then some [0, 1]
        else none)
      [[100], [101], [102], [103], [104], [105], [106], [107], [108], [109]]
      false false (fun _ => .ok)).total = 10 ∧
    (clean_gzip_headers
      (fun q =>
        if q = [100] then some [31, 139, 8, 0, 0, 0, 0, 0, 0, 3, 1, 2]
        else if q = [101] then some [31, 139, 8, 0, 5, 0, 0, 0, 0, 3, 9]
        else if q = [102] then some [31, 139, 8, 0, 0, 0, 0, 0, 0, 3, 1]
        else if q = [103] then some [31, 139, 8, 0, 0, 0, 0, 0, 0, 3, 2]
        else if q = [104] then some [31, 139, 8, 0, 7, 0, 0, 0, 0, 3, 8]
        else if q = [105] then some [31, 139, 8, 0, 0, 0, 0, 0, 0, 3, 4]
        else if q = [106] then some [31, 139, 8, 0, 0, 0, 0, 0, 0, 3, 5]
        else if q = [107] then some [31, 139, 8, 0, 1, 1, 0, 0, 0, 3, 6]
        else if q = [108] then some [31, 139, 8, 0, 0, 0, 0, 0, 0, 3, 7]
        else if q = [109] then some [0, 1]
        else none)
      [[100], [101], [102], [103], [104], [105], [106], [107], [108], [109]]
      false false (fun _ => .ok)).changed = 3 ∧
    (clean_gzip_headers
      (fun q =>
        if q = [100] then some [31, 139, 8, 0, 0, 0, 0, 0, 0, 3, 1, 2]
        else if q = [101] then some [31, 139, 8, 0, 5, 0, 0, 0, 0, 3, 9]
        else if q = [102] then some [31, 139, 8, 0, 0, 0, 0, 0, 0, 3, 1]
        else if q = [103] then some [31, 139, 8, 0, 0, 0, 0, 0, 0, 3, 2]
        else if q = [104] then some [31, 139, 8, 0, 7, 0, 0, 0, 0, 3, 8]
        else if q = [105] then some [31, 139, 8, 0, 0, 0, 0, 0, 0, 3, 4]
        else if q = [106] then some [31, 139, 8, 0, 0, 0, 0, 0, 0, 3, 5]
        else if q = [107] then some [31, 139, 8, 0, 1, 1, 0, 0, 0, 3, 6]
        else if q = [108] then some [31, 139, 8, 0, 0, 0, 0, 0, 0, 3, 7]
        else if q = [109] then some [0, 1]
        else none)
      [[100], [101], [102], [103], [104], [105], [106], [107], [108], [109]]
      false false (fun _ => .ok)).errors = 1 := by
  obtain ⟨ht, hc, he, -⟩ := c8_counts_per_file
    (fun q =>
      if q = [100] then some [31, 139, 8, 0, 0, 0, 0, 0, 0, 3, 1, 2]
      else if q = [101] then some [31, 139, 8, 0, 5, 0, 0, 0, 0, 3, 9]
      else if q = [102] then some [31, 139, 8, 0, 0, 0, 0, 0, 0, 3, 1]
      else if q = [103] then some [31, 139, 8, 0, 0, 0, 0, 0, 0, 3, 2]
      else if q = [104] then some [31, 139, 8, 0, 7, 0, 0, 0, 0, 3, 8]
      else if q = [105] then some [31, 139, 8, 0, 0, 0, 0, 0, 0, 3, 4]
      else if q = [106] then some [31, 139, 8, 0, 0, 0, 0, 0, 0, 3, 5]
      else if q = [107] then some [31, 139, 8, 0, 1, 1, 0, 0, 0, 3, 6]
      else if q = [108] then some [31, 139, 8, 0, 0, 0, 0, 0, 0, 3, 7]
      else if q = [109] then some [0, 1]
      else none)
    [[100], [101], [102], [103], [104], [105], [106], [107], [108], [109]]
    false (fun _ => .ok) (by decide) (by decide) (fun p _ => rfl)
  exact ⟨ht.trans (by decide), hc.trans (by decide), he.trans (by decide)⟩

theorem pathLe_total : ∀ a b : Path, pathLe a b = true ∨ pathLe b a = true := by
  intro a
  induction a with
  | nil => intro b; left; rfl
  | cons x as ih =>
      intro b
      cases b with
      | nil => right; rfl
      | cons y bs =>
          by_cases h1 : x < y
          · left; simp [pathLe, h1]
          · by_cases h2 : y < x
            · right; simp [pathLe, h2]
            · have hxy : x = y := le_antisymm (not_lt.mp h2) (not_lt.mp h1)
              subst hxy
              rcases ih bs with h | h
              · left; simpa [pathLe, lt_irrefl] using h
              · right; simpa [pathLe, lt_irrefl] using h

theorem pathLe_trans : ∀ a b c : Path,
    pathLe a b = true → pathLe b c = true → pathLe a c = true := by
  intro a
  induction a with
  | nil => intro b c _ _; rfl
  | cons x as ih =>
      intro b c hab hbc
      cases b with
      | nil => simp [pathLe] at hab
      | cons y bs =>
          cases c with
          | nil => simp [pathLe] at hbc
          | cons z cs =>
              have hyz : y < z ∨ (y = z ∧ pathLe bs cs = true) := by
                by_cases h1 : y < z
                · exact Or.inl h1
                · by_cases h2 : z < y
                  · simp [pathLe, h1, h2] at hbc
                  · have : y = z := le_antisymm (not_lt.mp h2) (not_lt.mp h1)
                    subst this
                    refine Or.inr ⟨rfl, ?_⟩
                    simpa [pathLe, lt_irrefl] using hbc
              by_cases hxy : x < y
              · have hxz : x < z := by
                  rcases hyz with h | ⟨h, -⟩
                  · exact hxy.trans h
                  · omega
                simp [pathLe, hxz]
              · by_cases hyx : y < x
                · simp [pathLe, hxy, hyx] at hab
                · have hxy' : x = y := le_antisymm (not_lt.mp hyx) (not_lt.mp hxy)
                  subst hxy'
                  have hab' : pathLe as bs = true := by
                    simpa [pathLe, lt_irrefl] using hab
                  rcases hyz with h | ⟨h, hbc'⟩
                  · simp [pathLe, h]
                  · subst h
                    simpa [pathLe, lt_irrefl] using ih bs cs hab' hbc'

theorem pathLe_antisymm : ∀ a b : Path,
    pathLe a b = true → pathLe b a = true → a = b := by
  intro a
  induction a with
  | nil =>
      intro b _ hba
      cases b with
      | nil => rfl
      | cons y bs => simp [pathLe] at hba
  | cons x as ih =>
      intro b hab hba
      cases b with
      | nil => simp [pathLe] at hab
      | cons y bs =>
          by_cases h1 : x < y
          · simp [pathLe, h1, lt_asymm h1] at hba
          · by_cases h2 : y < x
            · simp [pathLe, h1, h2] at hab
            · have hxy : x = y := le_antisymm (not_lt.mp h2) (not_lt.mp h1)
              subst hxy
              have hab' : pathLe as bs = true := by
                simpa [pathLe, lt_irrefl] using hab
              have hba' : pathLe bs as = true := by
                simpa [pathLe, lt_irrefl] using hba
              rw [ih bs hab' hba']

instance : IsTotal Path PathLeR := ⟨pathLe_total⟩

instance : IsTrans Path PathLeR := ⟨pathLe_trans⟩

instance : IsAntisymm Path PathLeR := ⟨pathLe_antisymm⟩

/-- C9: the driver visits the discovered files in sorted order, so the
whole run — final file system, all three counters, and the printed
lines — is invariant under permuting the discovery order of
`targets`. -/
theorem c9_run_invariant_under_permutation (fs : Fs) (d v : Bool)
    (weff : Path → Weff) {t1 t2 : List Path} (hp : t1.Perm t2) :
    clean_gzip_headers fs t1 d v weff = clean_gzip_headers fs t2 d v weff := by
  have hsort : List.insertionSort PathLeR t1 = List.insertionSort PathLeR t2 :=
    List.eq_of_perm_of_sorted
      (((List.perm_insertionSort PathLeR t1).trans hp).trans
        (List.perm_insertionSort PathLeR t2).symm)
      (List.sorted_insertionSort PathLeR t1)
      (List.sorted_insertionSort PathLeR t2)
  have hlen : t1.length = t2.length := hp.length_eq
  by_cases h1 : t1 = []
  · subst h1
    have h2 : t2 = [] := hp.symm.eq_nil
    subst h2
    rfl
  · have h2 : t2 ≠ [] := fun h => h1 (by subst h; exact hp.eq_nil)
    unfold clean_gzip_headers
    rw [if_neg h1, if_neg h2, hsort, hlen]

/-- C9 witness: two discovery orders of the same two-file directory
produce identical runs. -/
theorem c9_run_invariant_under_permutation_witness :
    clean_gzip_headers
      (fun q => if q = [97] then some [31, 139, 8, 0, 9, 0, 0, 0, 0, 3, 5]
                else if q = [98] then some [0, 1] else none)
      [[98], [97]] false false (fun _ => .ok) =
    clean_gzip_headers
      (fun q => if q = [97] then some [31, 139, 8, 0, 9, 0, 0, 0, 0, 3, 5]
                else if q = [98] then some [0, 1] else none)
      [[97], [98]] false false (fun _ => .ok) :=
  c9_run_invariant_under_permutation _ false false _ (List.Perm.swap [97] [98] [])

/-- C7 counterexample: the claim says every per-file failure is
printed unless quiet mode suppresses it.  In the default mode
(quiet off, verbose off) a malformed file increments the error counter
but its per-file error line is NOT printed: the print is gated on
`verbose`, and the whole output is just the two summary lines. -/
theorem c7_default_mode_prints_no_per_file_error :
    (mainModel (fun q => if q = [97] then some [0, 1] else none) [[97]]
      false false false (fun _ => .ok)).1.errors = 1 ∧
    Msg.errorChecking [97] ∉
      (mainModel (fun q => if q = [97] then some [0, 1] else none) [[97]]
        false false false (fun _ => .ok)).2 ∧
    (mainModel (fun q => if q = [97] then some [0, 1] else none) [[97]]
      false false false (fun _ => .ok)).2 =
      [Msg.cleanSummaryNoChange 1, Msg.errorsSummary 1] := by
  refine ⟨by decide, by decide, by decide⟩

theorem mainModel_eval (fs : Fs) (targets : List Path) (d va q : Bool)
    (weff : Path → Weff) :
    mainModel fs targets d va q weff =
      (clean_gzip_headers fs targets d (va && !q) weff,
       (clean_gzip_headers fs targets d (va && !q) weff).msgs ++
        (if q then []
         else
          (if d then
            [Msg.dryRunSummary (clean_gzip_headers fs targets d (va && !q) weff).total
              (clean_gzip_headers fs targets d (va && !q) weff).changed
              (clean_gzip_headers fs targets d (va && !q) weff).errors]
           else if (clean_gzip_headers fs targets d (va && !q) weff).changed > 0 then
            [Msg.cleanSummaryChanged
              (clean_gzip_headers fs targets d (va && !q) weff).changed
              (clean_gzip_headers fs targets d (va && !q) weff).total]
           else
            [Msg.cleanSummaryNoChange
              (clean_gzip_headers fs targets d (va && !q) weff).total]) ++
          (if (clean_gzip_headers fs targets d (va && !q) weff).errors > 0 then
            [Msg.errorsSummary (clean_gzip_headers fs targets d (va && !q) weff).errors]
           else []))) := rfl

theorem processFile_errored_msgs {fs : Fs} {p : Path} (d v : Bool) (w : Weff)
    (h : (processFile d v w fs p).2.1 = .errored) :
    (processFile d v w fs p).2.2 = if v then [.errorChecking p] else [] := by
  rw [processFile_outcome_eq] at h
  cases hc : fs p with
  | none =>
      have hna : needs_cleaning_at fs p = .error .ioFail := by
        simp [needs_cleaning_at, hc]
      rw [processFile_of_check_error d v w hna]
  | some c =>
      rw [hc] at h
      cases hm : parse_gzip_header c with
      | error e =>
          have hna : needs_cleaning_at fs p = .error (.parseFail e) := by
            simp [needs_cleaning_at, hc, needs_cleaning, hm]
          rw [processFile_of_check_error d v w hna]
      | ok m =>
          exfalso
          simp only [fileOutcome, needs_cleaning, hm] at h
          split at h
          · split at h
            · exact absurd h (by simp)
            · cases w <;> simp at h
          · exact absurd h (by simp)

theorem processFile_cleanFailed_msgs {fs : Fs} {p : Path} (v : Bool) (w : Weff)
    (h : (processFile false v w fs p).2.1 = .cleanFailed) :
    (processFile false v w fs p).2.2 = if v then [.errorCleaning p] else [] := by
  rw [processFile_outcome_eq] at h
  cases hc : fs p with
  | none => rw [hc] at h; simp [fileOutcome] at h
  | some c =>
      rw [hc] at h
      cases hm : parse_gzip_header c with
      | error e => simp [fileOutcome, needs_cleaning, hm] at h
      | ok m =>
          simp only [fileOutcome, needs_cleaning, hm] at h
          split at h
          · rename_i hcond
            have hneed : m.mtime ≠ 0 ∨ m.flg &&& FNAME ≠ 0 := by
              simpa [Bool.or_eq_true, decide_eq_true_eq] using hcond
            cases w with
            | ok => simp at h
            | fail n => rw [processFile_clean_fail v n hc hm hneed]
          · exact absurd h (by simp)

/-- C7 (amended): every per-file failure increments the error counter
(errors = number of failing files), and quiet mode indeed suppresses
everything; but a per-file failure is printed only in VERBOSE mode —
in the default mode (neither quiet nor verbose) no per-file error line
appears and only the aggregate `errors` count is printed in the
summary (whenever it is nonzero). -/
theorem c7_failure_reporting :
    (∀ (fs : Fs) (targets : List Path) (d va : Bool) (weff : Path → Weff),
      (mainModel fs targets d va true weff).2 = []) ∧
    (∀ (fs : Fs) (targets : List Path) (d va : Bool) (weff : Path → Weff),
      0 < (mainModel fs targets d va false weff).1.errors →
      Msg.errorsSummary (mainModel fs targets d va false weff).1.errors ∈
        (mainModel fs targets d va false weff).2) ∧
    (∀ (fs : Fs) (targets : List Path) (d : Bool) (weff : Path → Weff) (p : Path),
      Msg.errorChecking p ∉ (mainModel fs targets d false false weff).2 ∧
      Msg.errorCleaning p ∉ (mainModel fs targets d false false weff).2) ∧
    (∀ (fs : Fs) (p : Path) (d : Bool) (w : Weff),
      (processFile d true w fs p).2.1 = .errored →
      (processFile d true w fs p).2.2 = [.errorChecking p]) ∧
    (∀ (fs : Fs) (p : Path) (w : Weff),
      (processFile false true w fs p).2.1 = .cleanFailed →
      (processFile false true w fs p).2.2 = [.errorCleaning p]) ∧
    (∀ (fs : Fs) (targets : List Path) (d v : Bool) (weff : Path → Weff),
      targets.Nodup →
      (∀ p ∈ targets, ∀ q ∈ targets, q ≠ tmpPath p) →
      (clean_gzip_headers fs targets d v weff).errors =
        targets.countP (fun p => isFailure (fileOutcome d (weff p) (fs p)))) := by
  refine ⟨?_, ?_, ?_, ?_, ?_, ?_⟩
  · intro fs targets d va weff
    rw [mainModel_eval]
    simp only [Bool.not_true, Bool.and_false]
    rw [run_msgs_nonverbose]
    simp
  · intro fs targets d va weff h
    rw [mainModel_eval] at h ⊢
    dsimp only at h ⊢
    refine List.mem_append_right _ ?_
    rw [if_neg (by simp)]
    refine List.mem_append_right _ ?_
    rw [if_pos h]
    simp
  · intro fs targets d weff p
    rw [mainModel_eval]
    dsimp only
    have hm : (clean_gzip_headers fs targets d (false && !false) weff).msgs = [] :=
      run_msgs_nonverbose fs targets d weff
    rw [hm]
    constructor <;>
    · intro hmem
      simp only [List.nil_append] at hmem
      rw [if_neg (by decide)] at hmem
      rw [List.mem_append] at hmem
      rcases hmem with h1 | h1
      · split at h1
        · simp at h1
        · split at h1 <;> simp at h1
      · split at h1 <;> simp at h1
  · intro fs p d w h
    rw [processFile_errored_msgs d true w h]
    rfl
  · intro fs p w h
    rw [processFile_cleanFailed_msgs true w h]
    rfl
  · intro fs targets d v weff hnd htmp
    exact (run_counts fs targets d v weff hnd htmp).2.2

/-- C7 witness: the amended theorem applied to concrete runs: quiet
silences everything; a non-quiet run with a malformed file prints the
aggregate error summary; in verbose mode the malformed file's own
error line is printed; and the error counter counts the one failure. -/
theorem c7_failure_reporting_witness :
    (mainModel (fun q => if q = [97] then some [0, 1] else none) [[97]]
      false true true (fun _ => .ok)).2 = [] ∧
    Msg.errorsSummary 1 ∈
      (mainModel (fun q => if q = [97] then some [0, 1] else none) [[97]]
        false false false (fun _ => .ok)).2 ∧
    (processFile false true .ok
      (fun q => if q = [97] then some [0, 1] else none) [97]).2.2 =
      [.errorChecking [97]] ∧
    (clean_gzip_headers (fun q => if q = [97] then some [0, 1] else none)
      [[97]] false false (fun _ => .ok)).errors =
      ([[97]] : List Path).countP
        (fun p => isFailure (fileOutcome false ((fun _ => Weff.ok) p)
          ((fun q => if q = [97] then some ([0, 1] : List Nat) else none) p))) := by
  refine ⟨c7_failure_reporting.1 _ _ false true _, ?_, ?_, ?_⟩
  · have h := c7_failure_reporting.2.1
      (fun q => if q = [97] then some [0, 1] else none) [[97]] false false
      (fun _ => .ok) (by decide)
    simpa using h
  · exact c7_failure_reporting.2.2.2.1 _ [97] false .ok (by decide)
  · exact c7_failure_reporting.2.2.2.2.2 _ [[97]] false false _ (by decide) (by decide)

theorem exists_cons10 : ∀ (s : List Nat), 10 ≤ s.length →
    ∃ b0 b1 b2 b3 b4 b5 b6 b7 b8 b9 t,
      s = b0 :: b1 :: b2 :: b3 :: b4 :: b5 :: b6 :: b7 :: b8 :: b9 :: t
  | b0 :: b1 :: b2 :: b3 :: b4 :: b5 :: b6 :: b7 :: b8 :: b9 :: t, _ =>
      ⟨b0, b1, b2, b3, b4, b5, b6, b7, b8, b9, t, rfl⟩
  | [], h => absurd h (by simp)
  | [_], h => absurd h (by simp)
  | [_, _], h => absurd h (by simp)
  | [_, _, _], h => absurd h (by simp)
  | [_, _, _, _], h => absurd h (by simp)
  | [_, _, _, _, _], h => absurd h (by simp)
  | [_, _, _, _, _, _], h => absurd h (by simp)
  | [_, _, _, _, _, _, _], h => absurd h (by simp)
  | [_, _, _, _, _, _, _, _], h => absurd h (by simp)
  | [_, _, _, _, _, _, _, _, _], h => absurd h (by simp)

/-- The exact output of `rewrite_header_only` in terms of the input
bytes: the first three bytes unchanged, the flag byte with FNAME and
FHCRC cleared, four zero MTIME bytes, bytes 8–9 unchanged, the FEXTRA
span (read back from the input at offsets 10..12+xlen) when its bit is
set, the FCOMMENT span when its bit is set, and everything from
`payload_start` on. -/
theorem rewrite_output_eq {s : List Nat} {m : GzipMeta}
    (hb : ∀ b ∈ s, b < 256)
    (h : parse_gzip_header s = .ok m) :
    rewrite_header_only s m =
      s.take 3 ++ [newFlg (s.getD 3 0)] ++ [0, 0, 0, 0] ++ sliceAt s 8 10 ++
      (if s.getD 3 0 &&& FEXTRA ≠ 0 then
        sliceAt s 10 (12 + le16 (sliceAt s 10 12)) else []) ++
      (if s.getD 3 0 &&& FCOMMENT ≠ 0 then
        sliceAt s (m.fcomment_start.getD 0) (m.fcomment_end.getD 0) else []) ++
      s.drop m.payload_start := by
  obtain ⟨hlen, hmg, hcm8, hfirst, hflg, hmt, i1, i2, i3, hfe, hfn, hfc, hhc⟩ :=
    parse_ok_dest h
  obtain ⟨b0, b1, b2, b3, b4, b5, b6, b7, b8, b9, t, rfl⟩ := exists_cons10 s hlen
  obtain ⟨rfl, rfl⟩ : b0 = 31 ∧ b1 = 139 := by
    simpa using hmg
  have hb2 : b2 = 8 := by simpa using hcm8
  subst hb2
  have hflg' : m.flg = b3 := by simpa using hflg
  have hb3 : b3 < 256 := hb b3 (by simp)
  have hnf : (if m.flg &&& FHCRC ≠ 0 then
        pyAndNotMask (pyAndNotMask m.flg FNAME) FHCRC
      else pyAndNotMask m.flg FNAME) = newFlg b3 := by
    rw [hflg']
    exact new_flg_if_eq b3 hb3
  have hpay : (if m.flg &&& FHCRC ≠ 0 ∧ m.fhcrc_off ≠ none then
        m.fhcrc_off.getD 0 + 2 else m.payload_start) = m.payload_start := by
    by_cases h2 : m.flg &&& FHCRC ≠ 0
    · rw [parseHcrc, if_pos h2] at hhc
      obtain ⟨ha, hb'⟩ := Prod.mk.injEq .. |>.mp hhc
      rw [if_pos ⟨h2, by rw [ha]; simp⟩, ha, hb']
      rfl
    · rw [if_neg (fun hand => h2 hand.1)]
  have hext : (if m.flg &&& FEXTRA ≠ 0 then
        sliceAt (31 :: 139 :: 8 :: b3 :: b4 :: b5 :: b6 :: b7 :: b8 :: b9 :: t)
          (m.extra_len_off.getD 0) (m.extra_end.getD 0) else []) =
      (if b3 &&& FEXTRA ≠ 0 then
        sliceAt (31 :: 139 :: 8 :: b3 :: b4 :: b5 :: b6 :: b7 :: b8 :: b9 :: t)
          10 (12 + le16 (sliceAt
            (31 :: 139 :: 8 :: b3 :: b4 :: b5 :: b6 :: b7 :: b8 :: b9 :: t) 10 12))
       else []) := by
    rw [hflg']
    by_cases h4 : b3 &&& FEXTRA ≠ 0
    · rw [if_pos h4, if_pos h4]
      rw [hflg'] at hfe
      rcases parseFextra_ok hfe with ⟨hc0, -⟩ | ⟨-, -, helo, hee, -⟩
      · exact absurd hc0 h4
      · rw [helo, hee]
        norm_num [sliceAt]
    · rw [if_neg h4, if_neg h4]
  rw [show (31 :: 139 :: 8 :: b3 :: b4 :: b5 :: b6 :: b7 :: b8 :: b9 :: t
      : List Nat).getD 3 0 = b3 from rfl]
  simp only [rewrite_header_only]
  rw [hnf, hfirst, hpay, hext, hflg']
  rfl

/-- C1: for every input whose header parses, the rewrite emits exactly
the original 10-byte prefix with the flag byte replaced by
`flags & ~FNAME & ~FHCRC` and the four MTIME bytes zeroed (all other
prefix bytes unchanged), then the original FEXTRA span verbatim when
its bit was set, then the original FCOMMENT span verbatim when its bit
was set, then every input byte from the (FHCRC-adjusted)
`payload_start` to end of input; the FNAME and FHCRC spans are not
copied — the output is exactly this concatenation. -/
theorem c1_rewrite_exact {s : List Nat} {m : GzipMeta}
    (hb : ∀ b ∈ s, b < 256)
    (h : parse_gzip_header s = .ok m) :
    rewrite_header_only s m =
      s.take 3 ++ [newFlg (s.getD 3 0)] ++ [0, 0, 0, 0] ++ sliceAt s 8 10 ++
      (if s.getD 3 0 &&& FEXTRA ≠ 0 then
        sliceAt s 10 (12 + le16 (sliceAt s 10 12)) else []) ++
      (if s.getD 3 0 &&& FCOMMENT ≠ 0 then
        sliceAt s (m.fcomment_start.getD 0) (m.fcomment_end.getD 0) else []) ++
      s.drop m.payload_start ∧
    (rewrite_header_only s m).getD 3 0 &&& FNAME = 0 ∧
    (rewrite_header_only s m).getD 3 0 &&& FHCRC = 0 ∧
    sliceAt (rewrite_header_only s m) 4 8 = [0, 0, 0, 0] ∧
    (rewrite_header_only s m).take 3 = s.take 3 ∧
    sliceAt (rewrite_header_only s m) 8 10 = sliceAt s 8 10 := by
  have heq := rewrite_output_eq hb h
  have hlen : 10 ≤ s.length := (parse_ok_dest h).1
  obtain ⟨b0, b1, b2, b3, b4, b5, b6, b7, b8, b9, t, rfl⟩ := exists_cons10 s hlen
  have hb3 : b3 < 256 := hb b3 (by simp)
  have hg3 : (b0 :: b1 :: b2 :: b3 :: b4 :: b5 :: b6 :: b7 :: b8 :: b9 :: t
      : List Nat).getD 3 0 = b3 := rfl
  rw [hg3] at heq
  refine ⟨by rw [heq, hg3], ?_, ?_, ?_, ?_, ?_⟩ <;> rw [heq]
  · exact (flg_clear_facts b3 hb3).1
  · exact (flg_clear_facts b3 hb3).2.1
  · rfl
  · rfl
  · rfl

/-- C1 witness: a file with FNAME and FHCRC set and a nonzero MTIME:
the rewrite drops the name and checksum spans, zeroes MTIME, clears
both flag bits, and keeps the payload verbatim. -/
theorem c1_rewrite_exact_witness :
    rewrite_header_only
      [31, 139, 8, 10, 1, 0, 0, 0, 0, 3, 97, 0, 13, 14, 9, 9]
      ⟨[31, 139, 8, 10, 1, 0, 0, 0, 0, 3], 10, 1, none, none, some 10, some 12,
       none, none, some 12, 14⟩ =
      [31, 139, 8, 0, 0, 0, 0, 0, 0, 3, 9, 9] ∧
    (rewrite_header_only
      [31, 139, 8, 10, 1, 0, 0, 0, 0, 3, 97, 0, 13, 14, 9, 9]
      ⟨[31, 139, 8, 10, 1, 0, 0, 0, 0, 3], 10, 1, none, none, some 10, some 12,
       none, none, some 12, 14⟩).getD 3 0 &&& FNAME = 0 := by
  have h := c1_rewrite_exact (s := [31, 139, 8, 10, 1, 0, 0, 0, 0, 3, 97, 0, 13, 14, 9, 9])
    (by decide)
    (rfl : parse_gzip_header [31, 139, 8, 10, 1, 0, 0, 0, 0, 3, 97, 0, 13, 14, 9, 9] =
      .ok ⟨[31, 139, 8, 10, 1, 0, 0, 0, 0, 3], 10, 1, none, none, some 10, some 12,
           none, none, some 12, 14⟩)
  exact ⟨h.1.trans (by decide), h.2.1⟩

theorem parse_clean_ok (g b8 b9 : Nat) (rest : List Nat)
    (hg8 : g &&& FNAME = 0) (hg2 : g &&& FHCRC = 0)
    (hex : g &&& FEXTRA ≠ 0 → 2 ≤ rest.length)
    (hcm : g &&& FCOMMENT ≠ 0 →
      ∃ pre post,
        rest.drop (if g &&& FEXTRA ≠ 0 then 2 + le16 (rest.take 2) else 0) =
          pre ++ 0 :: post ∧ ∀ b ∈ pre, b ≠ 0) :
    ∃ m', parse_gzip_header
        (31 :: 139 :: 8 :: g :: 0 :: 0 :: 0 :: 0 :: b8 :: b9 :: rest) = .ok m' ∧
      m'.mtime = 0 ∧ m'.flg = g := by
  have heq := parse_unfold
    (31 :: 139 :: 8 :: g :: 0 :: 0 :: 0 :: 0 :: b8 :: b9 :: rest)
    (by simp) rfl rfl
  rw [show (31 :: 139 :: 8 :: g :: 0 :: 0 :: 0 :: 0 :: b8 :: b9 :: rest
      : List Nat).getD 3 0 = g from rfl] at heq
  by_cases h4 : g &&& FEXTRA ≠ 0
  · have h2r : 2 ≤ rest.length := hex h4
    rw [parseFextra_eval_ok
      (31 :: 139 :: 8 :: g :: 0 :: 0 :: 0 :: 0 :: b8 :: b9 :: rest) h4
      (by simp; omega)] at heq
    dsimp only at heq
    rw [parseName_skip _ _ hg8] at heq
    dsimp only at heq
    have hd10 : (31 :: 139 :: 8 :: g :: 0 :: 0 :: 0 :: 0 :: b8 :: b9 :: rest
        : List Nat).drop 10 = rest := rfl
    rw [hd10] at heq
    by_cases h16 : g &&& FCOMMENT ≠ 0
    · obtain ⟨pre, post, hdrop, hpre⟩ := hcm h16
      rw [if_pos h4] at hdrop
      have hdix : (31 :: 139 :: 8 :: g :: 0 :: 0 :: 0 :: 0 :: b8 :: b9 :: rest
          : List Nat).drop (12 + le16 (rest.take 2)) =
          rest.drop (2 + le16 (rest.take 2)) := by
        rw [show 12 + le16 (rest.take 2) =
          ([31, 139, 8, g, 0, 0, 0, 0, b8, b9] : List Nat).length +
            (2 + le16 (rest.take 2)) from by simp; omega]
        exact List.drop_append _
      have hscan : scanNul
          ((31 :: 139 :: 8 :: g :: 0 :: 0 :: 0 :: 0 :: b8 :: b9 :: rest
            : List Nat).drop (12 + le16 (rest.take 2)))
          (12 + le16 (rest.take 2)) =
          some (12 + le16 (rest.take 2) + pre.length + 1) := by
        rw [hdix, hdrop]
        exact scanNul_append_nul pre post _ hpre
      rw [show parseComment
          (31 :: 139 :: 8 :: g :: 0 :: 0 :: 0 :: 0 :: b8 :: b9 :: rest) g
          (12 + le16 (rest.take 2)) = .ok
            (some (12 + le16 (rest.take 2)),
             some (12 + le16 (rest.take 2) + pre.length + 1),
             12 + le16 (rest.take 2) + pre.length + 1)
          from by rw [parseComment, if_pos h16, hscan]] at heq
      dsimp only at heq
      exact ⟨_, heq, rfl, rfl⟩
    · push_neg at h16
      rw [parseComment_skip _ _ h16] at heq
      dsimp only at heq
      exact ⟨_, heq, rfl, rfl⟩
  · push_neg at h4
    rw [parseFextra_skip _ 10 h4] at heq
    dsimp only at heq
    rw [parseName_skip _ 10 hg8] at heq
    dsimp only at heq
    by_cases h16 : g &&& FCOMMENT ≠ 0
    · obtain ⟨pre, post, hdrop, hpre⟩ := hcm h16
      rw [if_neg (by simpa using h4), List.drop_zero] at hdrop
      have hscan : scanNul rest 10 = some (10 + pre.length + 1) := by
        rw [hdrop]
        exact scanNul_append_nul pre post 10 hpre
      rw [show parseComment
          (31 :: 139 :: 8 :: g :: 0 :: 0 :: 0 :: 0 :: b8 :: b9 :: rest) g 10 =
          .ok (some 10, some (10 + pre.length + 1), 10 + pre.length + 1)
          from by
            rw [parseComment, if_pos h16,
              show (31 :: 139 :: 8 :: g :: 0 :: 0 :: 0 :: 0 :: b8 :: b9 :: rest
                : List Nat).drop 10 = rest from rfl, hscan]] at heq
      dsimp only at heq
      exact ⟨_, heq, rfl, rfl⟩
    · push_neg at h16
      rw [parseComment_skip _ 10 h16] at heq
      dsimp only at heq
      exact ⟨_, heq, rfl, rfl⟩

/-- C4: cleaning is idempotent — the output of a successful rewrite
parses again with MTIME 0 and the FNAME bit clear, so the cleaning
predicate reports "no change needed" and a second (non-dry) run leaves
the file byte-identical (the loop body returns the file system
untouched, outcome `skipped`, and prints nothing). -/
theorem c4_idempotent {s : List Nat} {m : GzipMeta}
    (hb : ∀ b ∈ s, b < 256)
    (h : parse_gzip_header s = .ok m) :
    needs_cleaning (rewrite_header_only s m) =
      .ok (false, false, false, newFlg (s.getD 3 0), 0) ∧
    (∀ (fs : Fs) (p : Path) (d v : Bool) (w : Weff),
      fs p = some (rewrite_header_only s m) →
      processFile d v w fs p = (fs, .skipped, [])) := by
  have heq := rewrite_output_eq hb h
  obtain ⟨hlen, hmg, hcm8, hfirst, hflg, hmt, i1, i2, i3, hfe, hfn, hfc, hhc⟩ :=
    parse_ok_dest h
  obtain ⟨b0, b1, b2, b3, b4, b5, b6, b7, b8, b9, t, rfl⟩ := exists_cons10 s hlen
  obtain ⟨rfl, rfl⟩ : b0 = 31 ∧ b1 = 139 := by simpa using hmg
  have hb2 : b2 = 8 := by simpa using hcm8
  subst hb2
  have hflg' : m.flg = b3 := by simpa using hflg
  have hb3 : b3 < 256 := hb b3 (by simp)
  obtain ⟨f8, f2, f4, f16, -, -⟩ := flg_clear_facts b3 hb3
  rw [hflg'] at hfe hfn hfc
  rw [show (31 :: 139 :: 8 :: b3 :: b4 :: b5 :: b6 :: b7 :: b8 :: b9 :: t
      : List Nat).getD 3 0 = b3 from rfl] at heq
  have hshape : rewrite_header_only
      (31 :: 139 :: 8 :: b3 :: b4 :: b5 :: b6 :: b7 :: b8 :: b9 :: t) m =
      31 :: 139 :: 8 :: newFlg b3 :: 0 :: 0 :: 0 :: 0 :: b8 :: b9 ::
        (((if b3 &&& FEXTRA ≠ 0 then
            sliceAt (31 :: 139 :: 8 :: b3 :: b4 :: b5 :: b6 :: b7 :: b8 :: b9 :: t)
              10 (12 + le16 (sliceAt
                (31 :: 139 :: 8 :: b3 :: b4 :: b5 :: b6 :: b7 :: b8 :: b9 :: t) 10 12))
           else []) ++
          (if b3 &&& FCOMMENT ≠ 0 then
            sliceAt (31 :: 139 :: 8 :: b3 :: b4 :: b5 :: b6 :: b7 :: b8 :: b9 :: t)
              (m.fcomment_start.getD 0) (m.fcomment_end.getD 0)
           else [])) ++
         (31 :: 139 :: 8 :: b3 :: b4 :: b5 :: b6 :: b7 :: b8 :: b9 :: t).drop
           m.payload_start) := by
    rw [heq]
    rfl
  have hex : newFlg b3 &&& FEXTRA ≠ 0 →
      2 ≤ (((if b3 &&& FEXTRA ≠ 0 then
            sliceAt (31 :: 139 :: 8 :: b3 :: b4 :: b5 :: b6 :: b7 :: b8 :: b9 :: t)
              10 (12 + le16 (sliceAt
                (31 :: 139 :: 8 :: b3 :: b4 :: b5 :: b6 :: b7 :: b8 :: b9 :: t) 10 12))
           else []) ++
          (if b3 &&& FCOMMENT ≠ 0 then
            sliceAt (31 :: 139 :: 8 :: b3 :: b4 :: b5 :: b6 :: b7 :: b8 :: b9 :: t)
              (m.fcomment_start.getD 0) (m.fcomment_end.getD 0)
           else [])) ++
         (31 :: 139 :: 8 :: b3 :: b4 :: b5 :: b6 :: b7 :: b8 :: b9 :: t).drop
           m.payload_start).length := by
    intro h4g
    have h4 : b3 &&& FEXTRA ≠ 0 := by rwa [f4] at h4g
    rcases parseFextra_ok hfe with ⟨hc0, -⟩ | ⟨-, hlen12, -, -, -⟩
    · exact absurd hc0 h4
    have ht2 : 2 ≤ t.length := by
      simp only [List.length_cons] at hlen12
      omega
    have hE : (if b3 &&& FEXTRA ≠ 0 then
        sliceAt (31 :: 139 :: 8 :: b3 :: b4 :: b5 :: b6 :: b7 :: b8 :: b9 :: t)
          10 (12 + le16 (sliceAt
            (31 :: 139 :: 8 :: b3 :: b4 :: b5 :: b6 :: b7 :: b8 :: b9 :: t) 10 12))
       else []) = t.take (2 + le16 (t.take 2)) := by
      rw [if_pos h4]
      show t.take (12 + le16 (t.take 2) - 10) = t.take (2 + le16 (t.take 2))
      congr 1
      omega
    rw [hE]
    simp only [List.length_append, List.length_take]
    omega
  have hcm : newFlg b3 &&& FCOMMENT ≠ 0 →
      ∃ pre post,
        ((((if b3 &&& FEXTRA ≠ 0 then
            sliceAt (31 :: 139 :: 8 :: b3 :: b4 :: b5 :: b6 :: b7 :: b8 :: b9 :: t)
              10 (12 + le16 (sliceAt
                (31 :: 139 :: 8 :: b3 :: b4 :: b5 :: b6 :: b7 :: b8 :: b9 :: t) 10 12))
           else []) ++
          (if b3 &&& FCOMMENT ≠ 0 then
            sliceAt (31 :: 139 :: 8 :: b3 :: b4 :: b5 :: b6 :: b7 :: b8 :: b9 :: t)
              (m.fcomment_start.getD 0) (m.fcomment_end.getD 0)
           else [])) ++
         (31 :: 139 :: 8 :: b3 :: b4 :: b5 :: b6 :: b7 :: b8 :: b9 :: t).drop
           m.payload_start).drop
          (if newFlg b3 &&& FEXTRA ≠ 0 then
            2 + le16 ((((if b3 &&& FEXTRA ≠ 0 then
              sliceAt (31 :: 139 :: 8 :: b3 :: b4 :: b5 :: b6 :: b7 :: b8 :: b9 :: t)
                10 (12 + le16 (sliceAt
                  (31 :: 139 :: 8 :: b3 :: b4 :: b5 :: b6 :: b7 :: b8 :: b9 :: t) 10 12))
             else []) ++
            (if b3 &&& FCOMMENT ≠ 0 then
              sliceAt (31 :: 139 :: 8 :: b3 :: b4 :: b5 :: b6 :: b7 :: b8 :: b9 :: t)
                (m.fcomment_start.getD 0) (m.fcomment_end.getD 0)
             else [])) ++
           (31 :: 139 :: 8 :: b3 :: b4 :: b5 :: b6 :: b7 :: b8 :: b9 :: t).drop
             m.payload_start).take 2)
           else 0)) =
          pre ++ 0 :: post ∧ ∀ b ∈ pre, b ≠ 0 := by
    intro h16g
    have h16 : b3 &&& FCOMMENT ≠ 0 := by rwa [f16] at h16g
    rcases parseComment_ok hfc with ⟨hc0, -⟩ | ⟨-, hscan, hfcs, hfce⟩
    · exact absurd hc0 h16
    obtain ⟨pre, post, hsd, hpre, hie⟩ := scanNul_some_decomp _ _ _ hscan
    have hC : (if b3 &&& FCOMMENT ≠ 0 then
        sliceAt (31 :: 139 :: 8 :: b3 :: b4 :: b5 :: b6 :: b7 :: b8 :: b9 :: t)
          (m.fcomment_start.getD 0) (m.fcomment_end.getD 0)
       else []) = pre ++ [0] := by
      rw [if_pos h16, hfcs, hfce]
      show ((31 :: 139 :: 8 :: b3 :: b4 :: b5 :: b6 :: b7 :: b8 :: b9 :: t
        : List Nat).drop i2).take (i3 - i2) = pre ++ [0]
      rw [hsd, show i3 - i2 = pre.length + 1 from by omega, List.take_append]
      rfl
    have hi2lt : i2 < (31 :: 139 :: 8 :: b3 :: b4 :: b5 :: b6 :: b7 :: b8 :: b9 :: t
        : List Nat).length := by
      by_contra hcnot
      rw [List.drop_eq_nil_of_le (by omega)] at hsd
      simp at hsd
    by_cases h4 : b3 &&& FEXTRA ≠ 0
    · rcases parseFextra_ok hfe with ⟨hc0, -⟩ | ⟨-, hlen12, -, -, hi1⟩
      · exact absurd hc0 h4
      have hdt : (((31 :: 139 :: 8 :: b3 :: b4 :: b5 :: b6 :: b7 :: b8 :: b9 :: t
          : List Nat).drop 10).take 2) = t.take 2 := rfl
      rw [hdt] at hi1
      have hi12 : i1 ≤ i2 := by
        rcases parseName_ok hfn with ⟨-, -, -, hi2eq⟩ | ⟨-, hscan2, -, -⟩
        · omega
        · obtain ⟨pre2, post2, -, -, hie2⟩ := scanNul_some_decomp _ _ _ hscan2
          omega
      have hslen : (31 :: 139 :: 8 :: b3 :: b4 :: b5 :: b6 :: b7 :: b8 :: b9 :: t
          : List Nat).length = 10 + t.length := by simp; omega
      have htlen : 2 + le16 (t.take 2) < t.length := by omega
      have hE : (if b3 &&& FEXTRA ≠ 0 then
          sliceAt (31 :: 139 :: 8 :: b3 :: b4 :: b5 :: b6 :: b7 :: b8 :: b9 :: t)
            10 (12 + le16 (sliceAt
              (31 :: 139 :: 8 :: b3 :: b4 :: b5 :: b6 :: b7 :: b8 :: b9 :: t) 10 12))
         else []) = t.take (2 + le16 (t.take 2)) := by
        rw [if_pos h4]
        show t.take (12 + le16 (t.take 2) - 10) = t.take (2 + le16 (t.take 2))
        congr 1
        omega
      have hElen : (t.take (2 + le16 (t.take 2))).length = 2 + le16 (t.take 2) := by
        rw [List.length_take]
        omega
      have h4g : newFlg b3 &&& FEXTRA ≠ 0 := by rw [f4]; exact h4
      refine ⟨pre, (31 :: 139 :: 8 :: b3 :: b4 :: b5 :: b6 :: b7 :: b8 :: b9 :: t
        : List Nat).drop m.payload_start, ?_, hpre⟩
      rw [if_pos h4g, hE, hC]
      have hrt2 : (((t.take (2 + le16 (t.take 2)) ++ (pre ++ [0])) ++
          (31 :: 139 :: 8 :: b3 :: b4 :: b5 :: b6 :: b7 :: b8 :: b9 :: t).drop
            m.payload_start).take 2) = t.take 2 := by
        rw [List.take_append_of_le_length (by simp [hElen]; omega),
          List.take_append_of_le_length (by rw [hElen]; omega),
          take_take_of_le t (by omega)]
      rw [hrt2]
      have hdl := List.drop_left (t.take (2 + le16 (t.take 2)))
        ((pre ++ [0]) ++
          (31 :: 139 :: 8 :: b3 :: b4 :: b5 :: b6 :: b7 :: b8 :: b9 :: t
            : List Nat).drop m.payload_start)
      rw [hElen] at hdl
      rw [← List.append_assoc] at hdl
      rw [hdl]
      simp
    · refine ⟨pre, (31 :: 139 :: 8 :: b3 :: b4 :: b5 :: b6 :: b7 :: b8 :: b9 :: t
        : List Nat).drop m.payload_start, ?_, hpre⟩
      rw [if_neg (by rw [f4]; exact h4), if_neg h4, hC, List.drop_zero]
      simp
  obtain ⟨m', hp, hm0, hmf⟩ := parse_clean_ok (newFlg b3) b8 b9 _ f8 f2 hex hcm
  have hpout : parse_gzip_header (rewrite_header_only
      (31 :: 139 :: 8 :: b3 :: b4 :: b5 :: b6 :: b7 :: b8 :: b9 :: t) m) =
      .ok m' := by
    rw [hshape]
    exact hp
  constructor
  · rw [show (31 :: 139 :: 8 :: b3 :: b4 :: b5 :: b6 :: b7 :: b8 :: b9 :: t
      : List Nat).getD 3 0 = b3 from rfl]
    rw [needs_cleaning, hpout]
    dsimp only
    rw [hm0, hmf]
    simp [f8, f2]
  · intro fs p d v w hcfs
    exact processFile_skip d v w hcfs hpout hm0 (by rw [hmf]; exact f8)

/-- C4 witness: the idempotence theorem applied to a concrete file
with FNAME, FHCRC and a nonzero MTIME: after one rewrite the predicate
reports nothing to do and a second pass returns the file system
untouched. -/
theorem c4_idempotent_witness :
    needs_cleaning (rewrite_header_only
      [31, 139, 8, 10, 1, 0, 0, 0, 0, 3, 97, 0, 13, 14, 9, 9]
      ⟨[31, 139, 8, 10, 1, 0, 0, 0, 0, 3], 10, 1, none, none, some 10, some 12,
       none, none, some 12, 14⟩) = .ok (false, false, false, 0, 0) ∧
    processFile false false .ok
      (fun q => if q = [97] then some (rewrite_header_only
        [31, 139, 8, 10, 1, 0, 0, 0, 0, 3, 97, 0, 13, 14, 9, 9]
        ⟨[31, 139, 8, 10, 1, 0, 0, 0, 0, 3], 10, 1, none, none, some 10, some 12,
         none, none, some 12, 14⟩) else none) [97] =
      ((fun q => if q = [97] then some (rewrite_header_only
        [31, 139, 8, 10, 1, 0, 0, 0, 0, 3, 97, 0, 13, 14, 9, 9]
        ⟨[31, 139, 8, 10, 1, 0, 0, 0, 0, 3], 10, 1, none, none, some 10, some 12,
         none, none, some 12, 14⟩) else none), .skipped, []) := by
  have h := c4_idempotent
    (s := [31, 139, 8, 10, 1, 0, 0, 0, 0, 3, 97, 0, 13, 14, 9, 9])
    (by decide)
    (rfl : parse_gzip_header [31, 139, 8, 10, 1, 0, 0, 0, 0, 3, 97, 0, 13, 14, 9, 9] =
      .ok ⟨[31, 139, 8, 10, 1, 0, 0, 0, 0, 3], 10, 1, none, none, some 10, some 12,
           none, none, some 12, 14⟩)
  exact ⟨h.1.trans (by decide), h.2 _ [97] false false .ok rfl⟩
